import Mathlib

/- Shallow embedding of the riscv-5stage-simulator sources.  Machine
   integers (u32, i32, u8, usize) are modelled as Nat bit patterns with
   explicit two's-complement reinterpretation and explicit wrapping; Rust
   panics (unwrap, slice out of range, arithmetic overflow of a plain
   operator in a debug build, division by zero) are modelled as none of
   an Option-valued result. -/

namespace Sim

/- u32 bit patterns live below TWO32. -/
def TWO32 : Nat := 4294967296

def TWO31 : Nat := 2147483648

/- Reinterpret a u32 bit pattern as an i32 value. -/
def toSigned (x : Nat) : Int :=
  if x < TWO31 then (x : Int) else (x : Int) - (TWO32 : Int)

/- Truncate an integer to a u32 bit pattern (two's complement). -/
def wrap32 (i : Int) : Nat := (i % (TWO32 : Int)).toNat

def TWO64 : Nat := 18446744073709551616

/- Truncate an integer to a u64 bit pattern (two's complement). -/
def wrap64 (i : Int) : Nat := (i % (TWO64 : Int)).toNat

/- instruction.rs: enum Opcode. -/
inductive Opcode where
  | Lui | AuiPc | Jal | Jalr | Branch | Load | Store | Op | OpImm
  | MiscMem | System | Amo | LoadFp | StoreFp | OpFp
  | Fmadd | Fmsub | Fnmadd | Fnmsub
deriving DecidableEq, Repr

/- instruction.rs: enum Format. -/
inductive Format where
  | R | R4 | I | S | B | U | J
deriving DecidableEq, Repr

/- instruction.rs: enum Function (RISC-V mnemonics). -/
inductive Function where
  | Lui | AuiPc | Jal | Jalr
  | Beq | Bne | Blt | Bge | Bltu | Bgeu
  | Lb | Lh | Lw | Lbu | Lhu
  | Sb | Sh | Sw
  | Addi | Slti | Sltiu | Xori | Ori | Andi | Slli | Srli | Srai
  | Add | Sub | Sll | Slt | Sltu | Xor | Srl | Sra | Or | And
  | Fence | Fencei | Ecall | Ebreak
  | Mul | Mulh | Mulhsu | Mulhu | Div | Divu | Rem | Remu
  | Lrw | Scw | Amoswapw | Amoaddw | Amoxorw | Amoandw | Amoorw
  | Amominw | Amomaxw | Amominuw | Amomaxuw
  | Flw | Fsw | Fmadds | Fmsubs | Fnmsubs | Fnmadds | Fadds | Fsubs
  | Fmuls | Fdivs | Fsqrts | Fsgnjs | Fsgnjns | Fsgnjxs | Fmins | Fmaxs
  | Fcvtws | Fcvtwus | Fmvxw | Feqs | Flts | Fles | Fclasss
  | Fcvtsw | Fcvtswu | Fmvwx
deriving DecidableEq, Repr

/- instruction.rs: struct Fields (subfield values; absent fields are none). -/
structure Fields where
  rs1 : Option Nat := none
  rs2 : Option Nat := none
  rs3 : Option Nat := none
  rd : Option Nat := none
  funct2 : Option Nat := none
  funct3 : Option Nat := none
  funct7 : Option Nat := none
  imm : Option Nat := none
deriving DecidableEq, Repr

/- instruction.rs: struct Instruction. -/
structure Instruction where
  value : Nat := 19
  opcode : Opcode
  format : Format
  fields : Fields
  function : Function
deriving DecidableEq, Repr

/- alu.rs: fn alu(func: &Function, input1: i32, input2: i32) -> i32.
   Inputs and output are u32 bit patterns; none models a Rust panic
   (division by zero, overflowing plain + in a debug build, shift
   amount of 32 or more for the unmasked immediate shifts). -/
def alu (func : Function) (input1 input2 : Nat) : Option Nat :=
  match func with
  | .Add | .Addi | .AuiPc | .Jal | .Jalr => some ((input1 + input2) % TWO32)
  | .Sub => some (wrap32 (toSigned input1 - toSigned input2))
  | .Slt | .Slti => some (if toSigned input1 < toSigned input2 then 1 else 0)
  | .Sltu | .Sltiu => some (if input1 < input2 then 1 else 0)
  | .And | .Andi => some (Nat.land input1 input2)
  | .Or | .Ori => some (Nat.lor input1 input2)
  | .Xor | .Xori => some (Nat.xor input1 input2)
  | .Sll => some ((input1 <<< (input2 % 32)) % TWO32)
  | .Slli => if input2 < 32 then some ((input1 <<< input2) % TWO32) else none
  | .Srl => some (input1 >>> (input2 % 32))
  | .Srli => if input2 < 32 then some (input1 >>> input2) else none
  | .Sra => some (wrap32 (Int.fdiv (toSigned input1) (2 ^ (input2 % 32))))
  | .Srai =>
      if input2 < 32 then some (wrap32 (Int.fdiv (toSigned input1) (2 ^ input2)))
      else none
  | .Lui => some input2
  | .Beq => some (if input1 = input2 then 1 else 0)
  | .Bne => some (if input1 = input2 then 0 else 1)
  | .Blt => some (if toSigned input1 < toSigned input2 then 1 else 0)
  | .Bltu => some (if input1 < input2 then 1 else 0)
  | .Bge => some (if toSigned input2 ≤ toSigned input1 then 1 else 0)
  | .Bgeu => some (if input2 ≤ input1 then 1 else 0)
  | .Lb | .Lbu | .Lh | .Lhu | .Lw | .Sb | .Sh | .Sw =>
      let s := toSigned input1 + toSigned input2
      if -(TWO31 : Int) ≤ s ∧ s < (TWO31 : Int) then some (wrap32 s) else none
  | .Mul => some (wrap32 (toSigned input1 * toSigned input1))
  | .Mulh => some ((wrap64 (toSigned input1 * toSigned input2) / TWO32) % TWO32)
  | .Mulhu | .Mulhsu => some ((input1 * input2) >>> 32)
  | .Div =>
      if toSigned input2 = 0 then none
      else if toSigned input1 = -(TWO31 : Int) ∧ toSigned input2 = -1 then none
      else some (wrap32 (Int.tdiv (toSigned input1) (toSigned input2)))
  | .Divu => if input2 = 0 then none else some (input1 / input2)
  | .Rem =>
      if toSigned input2 = 0 then none
      else if toSigned input1 = -(TWO31 : Int) ∧ toSigned input2 = -1 then some 0
      else some (wrap32 (Int.tmod (toSigned input1) (toSigned input2)))
  | .Remu => if input2 = 0 then none else some (input1 % input2)
  | _ => some 0

/- Modelled from the spec: the bit-exact RV32M reference result for Mul,
   the low 32 bits of the product of the two inputs. -/
def rv32m_mul_ref (a b : Nat) : Nat := (a * b) % TWO32

/- pipeline/operand.rs: enum Operand. -/
inductive Operand where
  | Value (v : Nat)
  | Rob (idx : Nat)
  | None
deriving DecidableEq, Repr

/- pipeline/operand.rs: Default for Operand is Operand::None. -/
def Operand.default : Operand := Operand.None

/- pipeline/exception.rs: enum Exception. -/
inductive Exception where
  | WritingToInvalidMemory (addr : Nat)
  | WritingToReadOnlyMemory (addr : Nat)
  | SyscallNotImpl (num : Nat)
  | FailCallingSyscall (num : Nat)
deriving DecidableEq, Repr

/- Association-list model of std HashMap<usize, V>: mapGet returns the
   value bound to a key, mapInsert replaces or appends a binding,
   mapRemove removes a binding and returns the removed value, mapSet
   rebinds a key only if it is present (HashMap::get_mut + assignment). -/
def mapGet {β : Type} : List (Nat × β) → Nat → Option β
  | [], _ => none
  | p :: rest, k => if p.1 = k then some p.2 else mapGet rest k

def mapInsert {β : Type} : List (Nat × β) → Nat → β → List (Nat × β)
  | [], k, v => [(k, v)]
  | p :: rest, k, v => if p.1 = k then (k, v) :: rest else p :: mapInsert rest k v

def mapRemove {β : Type} : List (Nat × β) → Nat → Option β × List (Nat × β)
  | [], _ => (none, [])
  | p :: rest, k =>
      if p.1 = k then (some p.2, rest)
      else
        let r := mapRemove rest k
        (r.1, p :: r.2)

def mapSet {β : Type} : List (Nat × β) → Nat → β → List (Nat × β)
  | [], _, _ => []
  | p :: rest, k, v => if p.1 = k then (k, v) :: rest else p :: mapSet rest k v

/- Vec::swap_remove(i): replace element i with the last element and pop;
   none models the out-of-range panic. -/
def swapRemove {α : Type} (l : List α) (i : Nat) : Option (α × List α) :=
  match l.get? i, l.getLast? with
  | some x, some last => some (x, (l.set i last).dropLast)
  | _, _ => none

instance {ε α : Type} [DecidableEq ε] [DecidableEq α] :
    DecidableEq (Except ε α) := fun a b =>
  match a, b with
  | .ok x, .ok y =>
      if h : x = y then isTrue (by rw [h])
      else isFalse (by intro hc; cases hc; exact h rfl)
  | .error x, .error y =>
      if h : x = y then isTrue (by rw [h])
      else isFalse (by intro hc; cases hc; exact h rfl)
  | .ok _, .error _ => isFalse (by intro hc; cases hc)
  | .error _, .ok _ => isFalse (by intro hc; cases hc)

/- pipeline/reorder_buffer/mod.rs: struct ReorderBufferEntry. -/
structure ReorderBufferEntry where
  pc : Nat
  inst : Instruction
  mem_value : Operand
  reg_value : Option Nat
  rd : Nat
  addr : Operand
  branch_pred : Bool
  mem_rem_cycle : Nat
  mem_exception : Except Exception Unit
deriving DecidableEq, Repr

/- consts.rs: pub const MEM_CYCLE: usize = 10. -/
def MEM_CYCLE : Nat := 10

/- pipeline/reorder_buffer/mod.rs: ReorderBufferEntry::is_completed. -/
def ReorderBufferEntry.is_completed (e : ReorderBufferEntry) : Bool :=
  let mem_val_done := match e.mem_value with | Operand.Value _ => true | _ => false
  let addr_done := match e.addr with | Operand.Value _ => true | _ => false
  let reg_val_done := e.reg_value.isSome
  match e.inst.opcode with
  | Opcode.Store => mem_val_done && addr_done && (e.mem_rem_cycle = 0)
  | Opcode.Amo => mem_val_done && addr_done && reg_val_done && (e.mem_rem_cycle = 0)
  | Opcode.Jalr => addr_done && reg_val_done
  | _ => reg_val_done

/- pipeline/reorder_buffer/mod.rs: struct ReorderBuffer (stable indices in
   index_map/index_queue, compacted backing vector buf, free list
   unused_indies). -/
structure ReorderBuffer where
  highst_index : Nat := 0
  unused_indies : List Nat := []
  index_queue : List Nat := []
  index_map : List (Nat × Nat) := []
  buf : List (Nat × ReorderBufferEntry) := []
deriving DecidableEq, Repr

def ReorderBuffer.empty : ReorderBuffer := {}

/- ReorderBuffer::clear. -/
def ReorderBuffer.clear (_r : ReorderBuffer) : ReorderBuffer := {}

/- ReorderBuffer::register_new_index (pops the free list, else allocates a
   fresh index from highst_index). -/
def ReorderBuffer.register_new_index (r : ReorderBuffer) : Nat × ReorderBuffer :=
  match r.unused_indies with
  | [] => (r.highst_index, { r with highst_index := r.highst_index + 1 })
  | i :: rest => (i, { r with unused_indies := rest })

/- ReorderBuffer::add. -/
def ReorderBuffer.add (r : ReorderBuffer) (entry : ReorderBufferEntry) :
    Nat × ReorderBuffer :=
  let p := r.register_new_index
  let index := p.1
  let r1 := p.2
  (index,
    { r1 with
      index_queue := r1.index_queue ++ [index]
      buf := r1.buf ++ [(index, entry)]
      index_map := mapInsert r1.index_map index r1.buf.length })

/- ReorderBuffer::pop_front.  The outer none models the panics
   (index_queue.pop_front().unwrap(), buf.last().unwrap(), the
   swap_remove range check); the inner Option is the source's return
   value. -/
def ReorderBuffer.pop_front (r : ReorderBuffer) :
    Option (Option ReorderBufferEntry × ReorderBuffer) :=
  if r.buf.isEmpty then some (none, r)
  else
    match r.index_queue with
    | [] => none
    | index :: qrest =>
      let rem := mapRemove r.index_map index
      match rem.1 with
      | some raw_idx_to_remove =>
        match r.buf.getLast? with
        | none => none
        | some lastPair =>
          match swapRemove r.buf raw_idx_to_remove with
          | none => none
          | some (removedPair, newBuf) =>
            some (some removedPair.2,
              { r with
                index_queue := qrest
                index_map := mapSet rem.2 lastPair.1 raw_idx_to_remove
                buf := newBuf
                unused_indies := r.unused_indies ++ [index] })
      | none => some (none, { r with index_queue := qrest, index_map := rem.2 })

/- ReorderBuffer::len. -/
def ReorderBuffer.len (r : ReorderBuffer) : Nat := r.buf.length

/- ReorderBuffer::get. -/
def ReorderBuffer.get (r : ReorderBuffer) (index : Nat) :
    Option ReorderBufferEntry :=
  (mapGet r.index_map index).bind fun raw_idx =>
    (r.buf.get? raw_idx).map fun p => p.2

/- ReorderBuffer::get_mut followed by an in-place update of the entry
   (no effect when the index is dead, mirroring the None arm). -/
def ReorderBuffer.set_entry (r : ReorderBuffer) (index : Nat)
    (e : ReorderBufferEntry) : ReorderBuffer :=
  match mapGet r.index_map index with
  | none => r
  | some raw_idx => { r with buf := r.buf.set raw_idx (index, e) }

/- ReorderBuffer::nth_index (to_index(0) in callers: the ROB head). -/
def ReorderBuffer.nth_index (r : ReorderBuffer) (n : Nat) : Option Nat :=
  r.index_queue.get? n

/- register.rs: struct Register (write-protectable 32-bit register). -/
structure Register where
  value : Nat
  is_writable : Bool
deriving DecidableEq, Repr

/- Register::read. -/
def Register.read (r : Register) : Nat := r.value

/- Register::write for a u32-sized value (every register write in the
   pipeline stores a value of at most four bytes, so the size_of panic
   branch is unreachable); no effect when the register is read-only. -/
def Register.write (r : Register) (v : Nat) : Register :=
  if r.is_writable then { r with value := v } else r

/- register.rs: struct RegisterFile.  The gpr array and the
   related_rob array are modelled as total functions on register
   numbers; the pipeline only ever indexes them with 5-bit register
   numbers. -/
structure RegisterFile where
  pc : Register
  gpr : Nat → Register
  related_rob : Nat → Option Nat

/- RegisterFile::new: x0 read-only zero, x2 the stack pointer, no
   renames. -/
def RegisterFile.new (pc stack_pointer : Nat) : RegisterFile :=
  { pc := { value := pc, is_writable := true }
    gpr := fun i =>
      if i = 0 then { value := 0, is_writable := false }
      else if i = 2 then { value := stack_pointer, is_writable := true }
      else { value := 0, is_writable := true }
    related_rob := fun _ => none }

/- RegisterFile::get_reg_value; none models the rob.get(idx).unwrap()
   panic when the recorded rename points at a dead ROB index. -/
def RegisterFile.get_reg_value (reg : RegisterFile) (r : Nat)
    (rob : ReorderBuffer) : Option Operand :=
  match reg.related_rob r with
  | some idx =>
    match rob.get idx with
    | none => none
    | some entry =>
      match entry.reg_value with
      | some val => some (Operand.Value val)
      | none => some (Operand.Rob idx)
  | none => some (Operand.Value ((reg.gpr r).read))

/- RegisterFile::set_reg_rob_index. -/
def RegisterFile.set_reg_rob_index (reg : RegisterFile) (r rob_idx : Nat) :
    RegisterFile :=
  if r = 0 then reg
  else
    { reg with
      related_rob := fun j => if j = r then some rob_idx else reg.related_rob j }

/- gpr[i].write(v), as performed by retire, commit and the syscall
   return path. -/
def RegisterFile.write_gpr (reg : RegisterFile) (i v : Nat) : RegisterFile :=
  { reg with gpr := fun j => if j = i then (reg.gpr i).write v else reg.gpr j }

/- The conditional rename clear performed at retire: if
   related_rob[rd] == Some(old_index), set it to None. -/
def RegisterFile.clear_rename (reg : RegisterFile) (rd old_index : Nat) :
    RegisterFile :=
  match reg.related_rob rd with
  | some ri =>
    if ri = old_index then
      { reg with related_rob := fun j => if j = rd then none else reg.related_rob j }
    else reg
  | none => reg

/- Every mutation of the register file that occurs anywhere in the
   pipeline sources: a gpr write (Register::write), a pc write, a rename
   (RegisterFile::set_reg_rob_index) and the conditional rename clear in
   ReorderBufferEntry::retire. -/
inductive RegOp where
  | writeGpr (i v : Nat)
  | writePc (v : Nat)
  | setRobIdx (r idx : Nat)
  | clearRename (rd old_index : Nat)

def applyRegOp (reg : RegisterFile) : RegOp → RegisterFile
  | RegOp.writeGpr i v => reg.write_gpr i v
  | RegOp.writePc v => { reg with pc := reg.pc.write v }
  | RegOp.setRobIdx r idx => reg.set_reg_rob_index r idx
  | RegOp.clearRename rd old_index => reg.clear_rename rd old_index

def applyRegOps (reg : RegisterFile) : List RegOp → RegisterFile
  | [] => reg
  | op :: rest => applyRegOps (applyRegOp reg op) rest

/- memory/mod.rs: struct ProcessMemory.  data and stack are byte
   vectors; each range is a (start, end) pair of u32 addresses. -/
structure ProcessMemory where
  v_address_range : Nat × Nat
  read_only_range : Nat × Nat
  stack_range : Nat × Nat
  data : List Nat
  stack : List Nat
  stack_pointer_init : Nat := 0
deriving DecidableEq, Repr

/- ProcessMemory::check_address_space: true when the address passes the
   check (the source panics otherwise). -/
def ProcessMemory.check_address_space (m : ProcessMemory) (addr : Nat) : Bool :=
  !(addr < m.v_address_range.1 ||
    (m.v_address_range.2 ≤ addr && addr < m.stack_range.1))

/- ProcessMemory::check_write_address_space: true when the address is
   outside the read-only range (the source panics otherwise). -/
def ProcessMemory.check_write_address_space (m : ProcessMemory) (addr : Nat) :
    Bool :=
  !(m.read_only_range.1 ≤ addr && addr < m.read_only_range.2)

/- Little-endian byte image of a value of the given width. -/
def toBytes (width value : Nat) : List Nat :=
  (List.range width).map fun k => value / 256 ^ k % 256

/- Rust slice assignment buf[off..off+n].copy_from_slice(bytes); none
   models the out-of-range slicing panic. -/
def setBytes (l : List Nat) (off : Nat) (bytes : List Nat) : Option (List Nat) :=
  if off + bytes.length ≤ l.length then
    some (l.take off ++ bytes ++ l.drop (off + bytes.length))
  else none

/- Rust slice read buf[off..off+n]; none models the slicing panic. -/
def getBytes (l : List Nat) (off n : Nat) : Option (List Nat) :=
  if off + n ≤ l.length then some ((l.drop off).take n) else none

/- Little-endian value of a byte list. -/
def fromBytes (bytes : List Nat) : Nat :=
  bytes.foldr (fun b acc => acc * 256 + b) 0

/- ProcessMemory::write for a value of the given byte width.  In the
   snapshot both address checks panic, modelled as none; the data or the
   stack vector is selected by comparing the address with the stack
   base. -/
def ProcessMemory.write (m : ProcessMemory) (addr width value : Nat) :
    Option ProcessMemory :=
  if !m.check_address_space addr then none
  else if !m.check_write_address_space addr then none
  else if addr < m.stack_range.1 then
    (setBytes m.data (addr - m.v_address_range.1) (toBytes width value)).map
      fun d => { m with data := d }
  else
    (setBytes m.stack (addr - m.stack_range.1) (toBytes width value)).map
      fun s => { m with stack := s }

/- ProcessMemory::read_bytes. -/
def ProcessMemory.read_bytes (m : ProcessMemory) (addr size : Nat) :
    Option (List Nat) :=
  if !m.check_address_space addr then none
  else if addr < m.stack_range.1 then
    getBytes m.data (addr - m.v_address_range.1) size
  else getBytes m.stack (addr - m.stack_range.1) size

/- ProcessMemory::read for an unsigned value of the given byte width
   (both memory.rs revisions read the selected region little-endian). -/
def ProcessMemory.read (m : ProcessMemory) (addr width : Nat) : Option Nat :=
  (m.read_bytes addr width).map fromBytes

/- Modelled from the spec: the Result-returning ProcessMemory::write that
   the pipeline callers unwrap (reservation station, commit, syscalls)
   and that the spec describes as failing with WritingToInvalidMemory or
   WritingToReadOnlyMemory.  It is missing from the snapshot, whose
   write panics inside the address checks instead. -/
def ProcessMemory.write_checked (m : ProcessMemory) (addr width value : Nat) :
    Except Exception ProcessMemory :=
  if !m.check_address_space addr then
    Except.error (Exception.WritingToInvalidMemory addr)
  else if !m.check_write_address_space addr then
    Except.error (Exception.WritingToReadOnlyMemory addr)
  else
    match m.write addr width value with
    | some m2 => Except.ok m2
    | none => Except.error (Exception.WritingToInvalidMemory addr)

/- pipeline/functional_units/memory.rs: MemoryUnit::execute_store.  The
   store value is cast to the width selected by the mnemonic; the
   .unwrap() on the write result (and the panic inside the snapshot's
   write) is modelled as none.  On success the entry's mem_rem_cycle is
   zeroed. -/
def MemoryUnit.execute_store (e : ReorderBufferEntry) (m : ProcessMemory) :
    Option (ReorderBufferEntry × ProcessMemory) :=
  if e.inst.opcode = Opcode.Amo ∧ e.reg_value = none then some (e, m)
  else
    match e.addr, e.mem_value with
    | Operand.Value addr, Operand.Value value =>
      let width : Nat :=
        match e.inst.function with
        | Function.Sb => 1
        | Function.Sh => 2
        | _ => 4
      match m.write addr width (value % 256 ^ width) with
      | none => none
      | some m2 => some ({ e with mem_rem_cycle := 0 }, m2)
    | _, _ => some (e, m)

/- The store block of ReservationStation::execute
   (pipeline/reservation_staion.rs, lines 127-140): if the ROB head is a
   Store, or an AMO other than Lrw, call MemoryUnit::execute_store on it
   during the execute phase. -/
def rs_head_store_step (rob : ReorderBuffer) (mem : ProcessMemory) :
    Option (ReorderBuffer × ProcessMemory) :=
  match rob.nth_index 0 with
  | none => some (rob, mem)
  | some idx =>
    match rob.get idx with
    | none => some (rob, mem)
    | some head =>
      if (head.inst.opcode = Opcode.Store ∨ head.inst.opcode = Opcode.Amo) ∧
          head.inst.function ≠ Function.Lrw then
        match MemoryUnit.execute_store head mem with
        | none => none
        | some (head2, mem2) => some (rob.set_entry idx head2, mem2)
      else some (rob, mem)

/- pipeline/branch_predictor.rs: struct BranchPredictor. -/
structure BranchPredictor where
  branch_map : List (Nat × (Bool × Bool))
deriving DecidableEq, Repr

/- BranchPredictor::predict: insert (false, false) for an unseen pc and
   return the stored prediction bit. -/
def BranchPredictor.predict (bp : BranchPredictor) (pc : Nat) :
    Bool × BranchPredictor :=
  match mapGet bp.branch_map pc with
  | some v => (v.1, bp)
  | none => (false, { branch_map := mapInsert bp.branch_map pc (false, false) })

/- BranchPredictor::update: the four-case table of the source; none
   models the unwrap panic for an unseen pc and the unreachable arm for
   is_taken outside 0 and 1. -/
def BranchPredictor.update (bp : BranchPredictor) (pc is_taken : Nat) :
    Option BranchPredictor :=
  match mapGet bp.branch_map pc with
  | none => none
  | some val =>
    match val.2, is_taken with
    | true, 0 => some { branch_map := mapSet bp.branch_map pc (val.1, false) }
    | false, 0 => some { branch_map := mapSet bp.branch_map pc (false, false) }
    | true, 1 => some { branch_map := mapSet bp.branch_map pc (true, true) }
    | false, 1 => some { branch_map := mapSet bp.branch_map pc (val.1, true) }
    | _, _ => none

/- Modelled from the spec: the four-case update rule as the spec states
   it, mapping the previous (predicted, last_actual) pair and the actual
   outcome to the new pair. -/
def four_case_table (prev : Bool × Bool) (taken : Bool) : Bool × Bool :=
  match prev.2, taken with
  | true, false => (prev.1, false)
  | false, false => (false, false)
  | true, true => (true, true)
  | false, true => (prev.1, true)

/- pipeline/reorder_buffer/mod.rs: ReorderBufferEntry::retire.  The
   memory and register file are threaded through; the system call body
   performs host effects and is passed in as a function, exactly as the
   source calls Pipeline::system_call(memory, reg).  none models the
   mem_exception.unwrap() and system_call().unwrap() panics.  The
   returned Bool is the branch-misprediction flag. -/
def ReorderBufferEntry.retire (e : ReorderBufferEntry) (old_index : Nat)
    (mem : ProcessMemory) (reg : RegisterFile)
    (system_call : ProcessMemory → RegisterFile →
      Option (ProcessMemory × RegisterFile)) :
    Option (ProcessMemory × RegisterFile × Bool) :=
  match e.mem_exception with
  | Except.error _ => none
  | Except.ok _ =>
    if e.inst.opcode = Opcode.Branch then
      match e.reg_value with
      | some branch_result =>
        if branch_result = (if e.branch_pred then 1 else 0) then
          some (mem, reg, false)
        else some (mem, reg, true)
      | none => some (mem, reg, true)
    else if e.inst.function = Function.Ecall then
      match system_call mem reg with
      | none => none
      | some (m2, r2) => some (m2, r2, false)
    else
      match e.reg_value with
      | some reg_val =>
        some (mem, (reg.write_gpr e.rd reg_val).clear_rename e.rd old_index,
          false)
      | none => some (mem, reg, false)

/- The complete retirement step for one entry, with the branch predictor
   carried alongside: the snapshot's commit path hands retire only the
   memory and the register file, so the predictor cannot be and is not
   updated by any retirement. -/
def retire_step (e : ReorderBufferEntry) (old_index : Nat)
    (mem : ProcessMemory) (reg : RegisterFile) (bp : BranchPredictor)
    (system_call : ProcessMemory → RegisterFile →
      Option (ProcessMemory × RegisterFile)) :
    Option (ProcessMemory × RegisterFile × BranchPredictor × Bool) :=
  (e.retire old_index mem reg system_call).map fun r => (r.1, r.2.1, bp, r.2.2)

/- pipeline/reservation_staion.rs: enum RSStatus. -/
inductive RSStatus where
  | Wait | Execute | Finished
deriving DecidableEq, Repr

/- pipeline/reservation_staion.rs: struct RSEntry. -/
structure RSEntry where
  rob_index : Nat
  status : RSStatus
  inst : Instruction
  operand : Operand × Operand
  value : Nat
  remaining_clock : Nat
deriving DecidableEq, Repr

/- pipeline/functional_units/address.rs: struct AddressUnit. -/
structure AddressUnit where
  buf : List (Nat × RSEntry) := []
deriving DecidableEq, Repr

/- AddressUnit::clear. -/
def AddressUnit.clear (_a : AddressUnit) : AddressUnit := {}

/- pipeline/load_buffer.rs: enum LoadBufferStatus. -/
inductive LoadBufferStatus where
  | Wait | Execute | Finished
deriving DecidableEq, Repr

/- pipeline/load_buffer.rs: struct LoadBufferEntry (addr initially holds
   the immediate and accumulates the base value on propagation). -/
structure LoadBufferEntry where
  rob_index : Nat
  status : LoadBufferStatus
  func : Function
  base : Operand
  addr : Nat
  value : Nat
deriving DecidableEq, Repr

/- pipeline/load_buffer.rs: struct LoadBuffer. -/
structure LoadBuffer where
  buf : List LoadBufferEntry := []
deriving DecidableEq, Repr

/- LoadBuffer::clear. -/
def LoadBuffer.clear (_l : LoadBuffer) : LoadBuffer := {}

/- pipeline/reservation_staion.rs: struct ReservationStation, which owns
   the address unit and a load buffer besides its own station map. -/
structure ReservationStation where
  address_unit : AddressUnit := {}
  load_buf : LoadBuffer := {}
  station : List (Nat × RSEntry) := []
deriving DecidableEq, Repr

/- ReservationStation::clear: only the station map is cleared; the
   address unit and the inner load buffer keep their entries. -/
def ReservationStation.clear (rs : ReservationStation) : ReservationStation :=
  { rs with station := [] }

/- pipeline/mod.rs: struct Pipeline (register file, memory, ROB,
   reservation station, load buffer). -/
structure Pipeline where
  reg : RegisterFile
  memory : ProcessMemory
  rob : ReorderBuffer
  rs : ReservationStation
  lb : LoadBuffer

/- Pipeline::clear_all_buffers (pipeline/mod.rs, lines 41-45): clears the
   reservation station, the load buffer and the ROB; the register file
   (and in particular every related_rob entry) is not touched. -/
def Pipeline.clear_all_buffers (p : Pipeline) : Pipeline :=
  { p with rs := p.rs.clear, lb := p.lb.clear, rob := p.rob.clear }

/- The branch-misprediction squash of Pipeline::commit (pipeline/mod.rs,
   lines 126-135): clear all buffers and redirect the pc to the
   corrected target. -/
def Pipeline.mispredict_squash (p : Pipeline) (target : Nat) : Pipeline :=
  let p2 := p.clear_all_buffers
  { p2 with reg := { p2.reg with pc := p2.reg.pc.write target } }

/- The brk arm of Pipeline::system_call (pipeline/mod.rs, lines 97-107):
   when the argument is at or above the current data end, the data
   vector is resized to (addr - max_mem_addr + 1) elements - the count
   is passed to Vec::resize, whose argument is the new total length -
   and the end of the address range becomes addr + 1; the argument is
   returned (and written to a0 by the caller). -/
def listResize (l : List Nat) (new_len fill : Nat) : List Nat :=
  if new_len ≤ l.length then l.take new_len
  else l ++ List.replicate (new_len - l.length) fill

def brk_syscall (m : ProcessMemory) (addr : Nat) : ProcessMemory × Nat :=
  let max_mem_addr := m.v_address_range.2
  if max_mem_addr ≤ addr then
    ({ m with
        data := listResize m.data (addr - max_mem_addr + 1) 0
        v_address_range := (m.v_address_range.1, addr + 1) }, addr)
  else (m, addr)

/- Old-revision structures: the flat files pipeline/reorder_buffer.rs,
   pipeline/load_buffer.rs and pipeline/functional_units.rs use a
   circular ROB whose entries carry a MetaData tag. -/
namespace Old

/- pipeline/reorder_buffer.rs: enum MetaData. -/
inductive MetaData where
  | Branch (pred_taken is_taken : Bool)
  | Store (op1 op2 : Operand)
  | Syscall
  | Normal (rd : Nat)
deriving DecidableEq, Repr

/- pipeline/reorder_buffer.rs: struct ReorderBufferEntry. -/
structure ReorderBufferEntry where
  pc : Nat := 0
  inst : Instruction
  meta : MetaData := MetaData.Normal 0
  value : Nat := 0
  is_ready : Bool := false
deriving DecidableEq, Repr

/- pipeline/reorder_buffer.rs: ReorderBufferEntry::new; none models the
   inst.fields.imm.unwrap() panic in the Branch arm. -/
def ReorderBufferEntry.new (pc : Nat) (inst : Instruction) :
    Option ReorderBufferEntry :=
  let metaReady : Option (MetaData × Bool) :=
    match inst.opcode with
    | Opcode.Branch => some (MetaData.Branch false false, false)
    | Opcode.Store => some (MetaData.Store (Operand.Value 0) (Operand.Value 0), false)
    | Opcode.System =>
      if inst.function = Function.Ecall then some (MetaData.Syscall, true)
      else some (MetaData.Normal (inst.fields.rd.getD 0),
        inst.function = Function.Jal)
    | _ =>
      some (MetaData.Normal (inst.fields.rd.getD 0),
        inst.function = Function.Jal)
  let value : Option Nat :=
    match inst.opcode with
    | Opcode.Jal => some ((pc + 4) % TWO32)
    | Opcode.Jalr => some ((pc + 4) % TWO32)
    | Opcode.Branch =>
      match inst.fields.imm with
      | some imm => some ((pc + imm) % TWO32)
      | none => none
    | _ => some 0
  match metaReady, value with
  | some (meta, is_ready), some v =>
    some { pc := pc, inst := inst, meta := meta, value := v, is_ready := is_ready }
  | _, _ => none

/- pipeline/reorder_buffer.rs: struct ReorderBuffer (circular buffer with
   head and tail cursors). -/
structure ReorderBuffer where
  buf : List ReorderBufferEntry
  head : Nat
  tail : Nat
deriving DecidableEq, Repr

/- ReorderBuffer::len. -/
def ReorderBuffer.len (r : ReorderBuffer) : Nat :=
  (if r.tail < r.head then r.tail + r.buf.length else r.tail) - r.head

/- ReorderBuffer::get. -/
def ReorderBuffer.get (r : ReorderBuffer) (index : Nat) :
    Option ReorderBufferEntry :=
  if index < r.tail ∨ r.head ≤ index then r.buf.get? index else none

/- ReorderBuffer::iter: the unretired entries in program order, walking
   the positions (head + i) mod buf.len(). -/
def ReorderBuffer.iter (r : ReorderBuffer) : List ReorderBufferEntry :=
  (List.range r.len).filterMap fun i => r.buf.get? ((r.head + i) % r.buf.length)

/- ReorderBuffer::to_relative_pos. -/
def ReorderBuffer.to_relative_pos (r : ReorderBuffer) (index : Nat) :
    Option Nat :=
  (r.get index).bind fun _ =>
    if r.head ≤ index then some (index - r.head)
    else if index < r.tail then some (r.len - (r.tail - index))
    else none

/- pipeline/functional_units.rs: struct FunctionalUnitEntry. -/
structure FunctionalUnitEntry where
  remain_clock : Nat
  func : Function
  A : Nat
  B : Nat
deriving DecidableEq, Repr

/- pipeline/functional_units.rs: struct FunctionalUnits. -/
structure FunctionalUnits where
  buf : List (Nat × FunctionalUnitEntry) := []
deriving DecidableEq, Repr

/- FunctionalUnits::execute_load: fetch or create the timing entry (ten
   remaining cycles, A holds the address), decrement the counter, and
   read memory once it reaches zero.  none models the usize underflow
   panic of remain_clock -= 1 at zero, the panic inside the memory read
   and the unreachable mnemonic arm; the returned Option Nat is the
   source's return value. -/
def FunctionalUnits.execute_load (fu : FunctionalUnits)
    (entry : LoadBufferEntry) (mem : ProcessMemory) :
    Option (Option Nat × FunctionalUnits) :=
  let unit :=
    match mapGet fu.buf entry.rob_index with
    | some u => u
    | none =>
      { remain_clock := 10, func := entry.func, A := entry.addr, B := 0 }
  match unit.remain_clock with
  | 0 => none
  | rc + 1 =>
    let unit2 := { unit with remain_clock := rc }
    if rc = 0 then
      let readResult : Option Nat :=
        match unit2.func with
        | Function.Lb => mem.read unit2.A 1
        | Function.Lbu => mem.read unit2.A 1
        | Function.Lh => mem.read unit2.A 2
        | Function.Lhu => mem.read unit2.A 2
        | Function.Lw => mem.read unit2.A 4
        | _ => none
      match readResult with
      | none => none
      | some v => some (some v, { fu with buf := (mapRemove fu.buf entry.rob_index).2 })
    else some (none, { fu with buf := mapInsert fu.buf entry.rob_index unit2 })

/- The memory-disambiguation gate of LoadBuffer::execute
   (pipeline/load_buffer.rs, lines 121-138): an older unretired entry
   blocks the load exactly when its meta is a Store with an unresolved
   first operand or a Store whose resolved first operand equals the
   load's address. -/
def blocksLoad (load_addr : Nat) (e : ReorderBufferEntry) : Bool :=
  match e.meta with
  | MetaData.Store (Operand.Rob _) _ => true
  | MetaData.Store (Operand.Value a) _ => a = load_addr
  | _ => false

/- One iteration of the body of LoadBuffer::execute for a single entry:
   skip finished entries and entries with an unresolved base; otherwise
   consult the gate over the strictly older unretired ROB entries and,
   when clear, advance the functional-unit countdown (performing the
   read at zero).  none models the to_relative_pos(..).unwrap() panic
   and the panics inside execute_load. -/
def loadBufferStepEntry (rob : ReorderBuffer) (fu : FunctionalUnits)
    (mem : ProcessMemory) (entry : LoadBufferEntry) :
    Option (LoadBufferEntry × FunctionalUnits) :=
  match entry.status with
  | LoadBufferStatus.Finished => some (entry, fu)
  | _ =>
    match entry.base with
    | Operand.Value _ =>
      match rob.to_relative_pos entry.rob_index with
      | none => none
      | some entry_rel_pos =>
        if (rob.iter.take entry_rel_pos).any (blocksLoad entry.addr) then
          some (entry, fu)
        else
          match fu.execute_load entry mem with
          | none => none
          | some (some result, fu2) =>
            some ({ entry with status := LoadBufferStatus.Finished, value := result }, fu2)
          | some (none, fu2) =>
            match entry.status with
            | LoadBufferStatus.Wait =>
              some ({ entry with status := LoadBufferStatus.Execute }, fu2)
            | _ => some (entry, fu2)
    | _ => some (entry, fu)

/- LoadBuffer::execute: the sequential for loop over the buffer. -/
def loadBufferExecute (rob : ReorderBuffer) (mem : ProcessMemory) :
    List LoadBufferEntry → FunctionalUnits →
    Option (List LoadBufferEntry × FunctionalUnits)
  | [], fu => some ([], fu)
  | e :: rest, fu =>
    match loadBufferStepEntry rob fu mem e with
    | none => none
    | some (e2, fu2) =>
      match loadBufferExecute rob mem rest fu2 with
      | none => none
      | some (rest2, fu3) => some (e2 :: rest2, fu3)

/- Iterate LoadBuffer::execute over several clock cycles (the
   orchestrator calls it once per cycle). -/
def loadBufferExecuteN (rob : ReorderBuffer) (mem : ProcessMemory) :
    Nat → List LoadBufferEntry → FunctionalUnits →
    Option (List LoadBufferEntry × FunctionalUnits)
  | 0, lb, fu => some (lb, fu)
  | n + 1, lb, fu =>
    match loadBufferExecute rob mem lb fu with
    | none => none
    | some (lb2, fu2) => loadBufferExecuteN rob mem n lb2 fu2

/- pipeline/reorder_buffer.rs: the MetaData::Syscall test of
   Pipeline::is_program_finished (pipeline/mod.rs, lines 163-173): some
   retired entry is a syscall while a7 holds 93 or 94. -/
def is_program_finished (reg : RegisterFile)
    (retired : List ReorderBufferEntry) : Bool :=
  retired.any fun e =>
    (match e.meta with | MetaData.Syscall => true | _ => false) &&
      ((reg.gpr 17).read = 93 || (reg.gpr 17).read = 94)

end Old

/- main.rs, lines 53-70: the body of the main loop runs one clock and
   then, only inside the if on the print_steps flag, tests is_finished
   and breaks.  This function is the exact break decision of one
   iteration: the loop exits (and the process then ends with exit code
   0) exactly when it returns true. -/
def main_loop_break (print_steps is_finished : Bool) : Bool :=
  if print_steps then
    if is_finished then true else false
  else false

/- An arbitrary interleaving of ReorderBuffer::add and
   ReorderBuffer::pop_front calls. -/
inductive RobOp where
  | add (e : ReorderBufferEntry)
  | pop

/- Run a sequence of operations on the concrete ReorderBuffer, recording
   the value returned by every pop_front; none when any call panics. -/
def runOps : ReorderBuffer → List RobOp →
    Option (ReorderBuffer × List (Option ReorderBufferEntry))
  | r, [] => some (r, [])
  | r, RobOp.add e :: rest => runOps (r.add e).2 rest
  | r, RobOp.pop :: rest =>
    match r.pop_front with
    | none => none
    | some (out, r2) =>
      match runOps r2 rest with
      | none => none
      | some (rEnd, outs) => some (rEnd, out :: outs)

/- The abstract FIFO the reorder buffer is supposed to implement: a
   queue of (stable index, entry) pairs in issue order, a free list of
   reusable indices, and the next fresh index.  add assigns an index by
   the same policy as the source (free list first); pop returns the
   oldest entry and only then recycles its index. -/
structure RobModel where
  queue : List (Nat × ReorderBufferEntry)
  free : List Nat
  next : Nat
deriving DecidableEq, Repr

def RobModel.empty : RobModel := { queue := [], free := [], next := 0 }

def RobModel.add (m : RobModel) (e : ReorderBufferEntry) : RobModel :=
  match m.free with
  | [] => { queue := m.queue ++ [(m.next, e)], free := [], next := m.next + 1 }
  | i :: rest => { queue := m.queue ++ [(i, e)], free := rest, next := m.next }

def RobModel.pop (m : RobModel) : Option ReorderBufferEntry × RobModel :=
  match m.queue with
  | [] => (none, m)
  | (i, e) :: rest =>
    (some e, { queue := rest, free := m.free ++ [i], next := m.next })

def runModel : RobModel → List RobOp →
    RobModel × List (Option ReorderBufferEntry)
  | m, [] => (m, [])
  | m, RobOp.add e :: rest => runModel (m.add e) rest
  | m, RobOp.pop :: rest =>
    let p := m.pop
    let r := runModel p.2 rest
    (r.1, p.1 :: r.2)

/- The coupling invariant between the concrete ReorderBuffer and the
   abstract FIFO: the issue queue lists the keys of the abstract queue
   in order, the free list and the fresh counter agree, the backing
   vector holds exactly the live (index, entry) pairs in some order,
   index_map sends the key stored at each backing position to that
   position and is undefined on dead indices, and the bookkeeping side
   conditions (no duplicate live keys, no duplicate free indices, the
   free list disjoint from the live keys, every index below the
   counter, no duplicate map keys). -/
structure RobCoupled (s : ReorderBuffer) (m : RobModel) : Prop where
  hqueue : s.index_queue = m.queue.map Prod.fst
  hfree : s.unused_indies = m.free
  hnext : s.highst_index = m.next
  hperm : s.buf.Perm m.queue
  hpos : ∀ p pr, s.buf.get? p = some pr → mapGet s.index_map pr.1 = some p
  hdead : ∀ i, i ∉ s.buf.map Prod.fst → mapGet s.index_map i = none
  hqnodup : (m.queue.map Prod.fst).Nodup
  hfnodup : m.free.Nodup
  hdisj : ∀ i, i ∈ m.free → i ∉ m.queue.map Prod.fst
  hqbound : ∀ i, i ∈ m.queue.map Prod.fst → i < m.next
  hfbound : ∀ i, i ∈ m.free → i < m.next
  hmnodup : (s.index_map.map Prod.fst).Nodup

/- Concrete instructions and states used by the counterexample and
   failing-input theorems below. -/

def inst_sw : Instruction :=
  { value := 0, opcode := Opcode.Store, format := Format.S
    fields := { rs1 := some 1, rs2 := some 2, imm := some 4 }
    function := Function.Sw }

def inst_beq : Instruction :=
  { value := 0, opcode := Opcode.Branch, format := Format.B
    fields := { rs1 := some 1, rs2 := some 2, imm := some 16 }
    function := Function.Beq }

def inst_amoswap : Instruction :=
  { value := 0, opcode := Opcode.Amo, format := Format.R4
    fields := { rs1 := some 1, rs2 := some 2, rd := some 3 }
    function := Function.Amoswapw }

def inst_lw : Instruction :=
  { value := 0, opcode := Opcode.Load, format := Format.I
    fields := { rs1 := some 1, rd := some 5, imm := some 4 }
    function := Function.Lw }

def inst_ecall : Instruction :=
  { value := 115, opcode := Opcode.System, format := Format.I
    fields := { rs1 := some 0, rd := some 0, imm := some 0 }
    function := Function.Ecall }

/- A small writable process image: eight data bytes at addresses 0..8,
   no read-only range, an eight-byte stack at the top of the address
   space. -/
def c2_mem : ProcessMemory :=
  { v_address_range := (0, 8), read_only_range := (0, 0)
    stack_range := (4294967288, 0)
    data := [0, 0, 0, 0, 0, 0, 0, 0]
    stack := [0, 0, 0, 0, 0, 0, 0, 0] }

/- A store of value 7 to address 4 whose address and value are already
   resolved; it has not retired (it still sits in the ROB). -/
def c2_store_entry : ReorderBufferEntry :=
  { pc := 0, inst := inst_sw, mem_value := Operand.Value 7, reg_value := none
    rd := 0, addr := Operand.Value 4, branch_pred := false
    mem_rem_cycle := MEM_CYCLE, mem_exception := Except.ok () }

/- A ROB holding exactly that store, built by ReorderBuffer::add. -/
def c2_rob : ReorderBuffer := (ReorderBuffer.empty.add c2_store_entry).2

def c2_pair : ReorderBuffer × ProcessMemory :=
  (rs_head_store_step c2_rob c2_mem).getD (c2_rob, c2_mem)

/- A process image whose addresses 16..48 are read-only. -/
def c5_mem : ProcessMemory :=
  { v_address_range := (0, 64), read_only_range := (16, 48)
    stack_range := (4294967288, 0)
    data := List.replicate 64 0
    stack := List.replicate 8 0 }

/- A store of value 5 to the read-only address 16. -/
def c5_store_entry : ReorderBufferEntry :=
  { pc := 0, inst := inst_sw, mem_value := Operand.Value 5, reg_value := none
    rd := 0, addr := Operand.Value 16, branch_pred := false
    mem_rem_cycle := MEM_CYCLE, mem_exception := Except.ok () }

/- Concrete pipeline state for the squash theorem: register 5 renamed to
   ROB index 3, a pending address-unit entry under ROB index 7, one
   station entry, one load-buffer entry, one ROB entry. -/
def c4_rs_entry : RSEntry :=
  { rob_index := 7, status := RSStatus.Wait, inst := inst_sw
    operand := (Operand.Rob 3, Operand.Value 4), value := 0
    remaining_clock := 1 }

def c4_lb_entry : LoadBufferEntry :=
  { rob_index := 1, status := LoadBufferStatus.Wait, func := Function.Lw
    base := Operand.Value 0, addr := 4, value := 0 }

def c4_pipeline : Pipeline :=
  { reg := (RegisterFile.new 100 200).set_reg_rob_index 5 3
    memory := c2_mem
    rob := (ReorderBuffer.empty.add c2_store_entry).2
    rs :=
      { address_unit := { buf := [(7, c4_rs_entry)] }
        load_buf := { buf := [] }
        station := [(3, c4_rs_entry)] }
    lb := { buf := [c4_lb_entry] } }

/- Concrete predictor state for the retirement theorem: the branch at pc
   64 is predicted not taken, with a remembered actual of taken. -/
def c6_bp : BranchPredictor := { branch_map := [(64, (false, true))] }

/- A completed branch at pc 64 that was actually taken (reg_value 1)
   against a recorded prediction of not taken. -/
def c6_branch_entry : ReorderBufferEntry :=
  { pc := 64, inst := inst_beq, mem_value := Operand.None, reg_value := some 1
    rd := 0, addr := Operand.None, branch_pred := false
    mem_rem_cycle := MEM_CYCLE, mem_exception := Except.ok () }

/- A system-call body with no host effect, used where retire needs one
   but never reaches it. -/
def noop_system_call (m : ProcessMemory) (r : RegisterFile) :
    Option (ProcessMemory × RegisterFile) := some (m, r)

/- Concrete old-revision states for the load-gating theorem: an
   amoswap.w occupies ROB slot 0 and a lw sits behind it in slot 1. -/
def c3_amo_entry : Old.ReorderBufferEntry :=
  { pc := 0, inst := inst_amoswap, meta := Old.MetaData.Normal 3
    value := 0, is_ready := false }

def c3_load_entry : Old.ReorderBufferEntry :=
  { pc := 4, inst := inst_lw, meta := Old.MetaData.Normal 5
    value := 0, is_ready := false }

def c3_rob : Old.ReorderBuffer :=
  { buf := [c3_amo_entry, c3_load_entry, c3_amo_entry], head := 0, tail := 2 }

/- The same scenario with the older instruction issued as a store whose
   resolved address equals the load's address. -/
def c3_store_entry : Old.ReorderBufferEntry :=
  { pc := 0, inst := inst_sw
    meta := Old.MetaData.Store (Operand.Value 4) (Operand.Value 7)
    value := 0, is_ready := false }

def c3_rob_store : Old.ReorderBuffer :=
  { buf := [c3_store_entry, c3_load_entry, c3_store_entry], head := 0, tail := 2 }

/- The load-buffer entry of the lw: base resolved, address 4. -/
def c3_lb : List LoadBufferEntry :=
  [{ rob_index := 1, status := LoadBufferStatus.Wait, func := Function.Lw
     base := Operand.Value 100, addr := 4, value := 0 }]

/- Data bytes 9,0,0,0 at address 0 and 7,1,0,0 at address 4: the word at
   address 4 reads as 263. -/
def c3_mem : ProcessMemory :=
  { v_address_range := (0, 8), read_only_range := (0, 0)
    stack_range := (4294967288, 0)
    data := [9, 0, 0, 0, 7, 1, 0, 0]
    stack := [0, 0, 0, 0, 0, 0, 0, 0] }

/- Memory with data bytes 1..8 backing addresses 0..8, for the brk
   theorem. -/
def c8_mem : ProcessMemory :=
  { v_address_range := (0, 8), read_only_range := (0, 0)
    stack_range := (4294967288, 0)
    data := [1, 2, 3, 4, 5, 6, 7, 8]
    stack := [0, 0, 0, 0, 0, 0, 0, 0] }

/- A retired exit ecall: meta Syscall while a7 holds 93. -/
def c9_exit_entry : Old.ReorderBufferEntry :=
  { pc := 0, inst := inst_ecall, meta := Old.MetaData.Syscall
    value := 0, is_ready := true }

def c9_reg : RegisterFile := (RegisterFile.new 0 0).write_gpr 17 93

/- Theorems. -/

/-- C1: the claim states that alu(Mul, a, b) returns the low 32 bits of
a*b.  The source computes input1*input1: at inputs 2 and 3 the code
yields 4 while the bit-exact RV32M reference result is 6. -/
theorem c1_alu_mul_squares_first_input :
    alu Function.Mul 2 3 = some 4 ∧ rv32m_mul_ref 2 3 = 6 ∧
      alu Function.Mul 2 3 ≠ some (rv32m_mul_ref 2 3) := by decide

/-- C2 counterexample: the claim states ProcessMemory::write is invoked
only during commit and never during the execute phase.  On a concrete
reachable state - one issued store with resolved address and value,
still sitting unretired in the ROB - the store block of
ReservationStation::execute (the execute phase) changes the memory
image: byte 4 becomes 7. -/
theorem c2_store_written_during_execute :
    rs_head_store_step c2_rob c2_mem = some c2_pair ∧
    c2_mem.data = [0, 0, 0, 0, 0, 0, 0, 0] ∧
    c2_pair.2.data = [0, 0, 0, 0, 7, 0, 0, 0] ∧
    (c2_rob.get 0).isSome = true := by decide

/-- C2 amended: whenever the execute-phase store block changes the
memory, the written entry is exactly the ROB head (the oldest in-flight
instruction, so the write is still performed in ROB order and only
once the address, value and - for AMOs - reg_value are resolved), a
Store or an AMO other than Lrw, and the new memory is the result of
MemoryUnit::execute_store on that head entry. -/
theorem c2_execute_writes_only_rob_head (rob : ReorderBuffer)
    (mem : ProcessMemory) (out : ReorderBuffer × ProcessMemory)
    (hstep : rs_head_store_step rob mem = some out) (hmem : out.2 ≠ mem) :
    ∃ idx head head2,
      rob.nth_index 0 = some idx ∧ rob.get idx = some head ∧
      (head.inst.opcode = Opcode.Store ∨ head.inst.opcode = Opcode.Amo) ∧
      head.inst.function ≠ Function.Lrw ∧
      MemoryUnit.execute_store head mem = some (head2, out.2) ∧
      out.1 = rob.set_entry idx head2 := by
  unfold rs_head_store_step at hstep
  split at hstep
  · cases hstep; exact absurd rfl hmem
  · rename_i idx hidx
    split at hstep
    · cases hstep; exact absurd rfl hmem
    · rename_i head hget
      split at hstep
      · rename_i hcond
        split at hstep
        · cases hstep
        · rename_i head2 mem2 hex
          cases hstep
          exact ⟨idx, head, head2, hidx, hget, hcond.1, hcond.2, hex, rfl⟩
      · rename_i hcond
        cases hstep
        exact absurd rfl hmem

/-- C2 witness: the amended statement applied to the concrete store
state of the counterexample. -/
theorem c2_execute_writes_only_rob_head_witness :
    ∃ idx head head2,
      c2_rob.nth_index 0 = some idx ∧ c2_rob.get idx = some head ∧
      (head.inst.opcode = Opcode.Store ∨ head.inst.opcode = Opcode.Amo) ∧
      head.inst.function ≠ Function.Lrw ∧
      MemoryUnit.execute_store head c2_mem = some (head2, c2_pair.2) ∧
      c2_pair.1 = c2_rob.set_entry idx head2 :=
  c2_execute_writes_only_rob_head c2_rob c2_mem c2_pair (by decide) (by decide)

/-- C3: the claim states a load reads only when no older unretired Store
or AMO (except Lrw) has an unresolved or equal address.  In the cited
LoadBuffer::execute the gate inspects only MetaData::Store entries, and
ReorderBufferEntry::new issues an amoswap.w with MetaData::Normal, so a
load at ROB slot 1 performs its read (finishing with the loaded word
263) while the older amoswap.w in slot 0 is still in flight; behind a
Store with the same address the identical load stays gated. -/
theorem c3_load_reads_past_older_amo :
    Old.ReorderBufferEntry.new 0 inst_amoswap = some c3_amo_entry ∧
    c3_amo_entry.meta = Old.MetaData.Normal 3 ∧
    inst_amoswap.opcode = Opcode.Amo ∧
    inst_amoswap.function ≠ Function.Lrw ∧
    Old.loadBufferExecuteN c3_rob c3_mem 10 c3_lb {} =
      some ([{ rob_index := 1, status := LoadBufferStatus.Finished
               func := Function.Lw, base := Operand.Value 100, addr := 4
               value := 263 }], {}) ∧
    Old.loadBufferExecuteN c3_rob_store c3_mem 10 c3_lb {} =
      some (c3_lb, {}) := by decide

/-- C4: the claim states that after a mispredict squash the reservation
station, load buffer, address unit and ROB are empty and every
related_rob entry is None.  On a concrete state,
Pipeline::clear_all_buffers empties the station, the load buffer and
the ROB, but the address unit keeps its entry and related_rob[5] still
holds Some 3 - after which get_reg_value(5) hits the
rob.get(idx).unwrap() panic on the now-empty ROB. -/
theorem c4_squash_leaves_renames_and_address_unit :
    (c4_pipeline.mispredict_squash 100).reg.related_rob 5 = some 3 ∧
    (c4_pipeline.mispredict_squash 100).rs.address_unit.buf =
      [(7, c4_rs_entry)] ∧
    (c4_pipeline.mispredict_squash 100).rs.station = [] ∧
    (c4_pipeline.mispredict_squash 100).rob = ReorderBuffer.empty ∧
    (c4_pipeline.mispredict_squash 100).lb.buf = [] ∧
    (c4_pipeline.mispredict_squash 100).reg.get_reg_value 5
      (c4_pipeline.mispredict_squash 100).rob = none := by
  exact ⟨rfl, by decide, rfl, by decide, rfl, rfl⟩

/-- C5: the claim states a faulting memory write is returned as a
WritingTo...Memory error value, stored in the entry's mem_exception and
surfaced only at retire.  In the snapshot ProcessMemory::write panics
on the read-only address (modelled none), MemoryUnit::execute_store
unwraps and aborts at the write, and the entry's mem_exception is never
written; only the spec-modelled Result-returning write produces the
declared error value. -/
theorem c5_write_fault_aborts_not_captured :
    ProcessMemory.write c5_mem 16 4 5 = none ∧
    ProcessMemory.write_checked c5_mem 16 4 5 =
      Except.error (Exception.WritingToReadOnlyMemory 16) ∧
    MemoryUnit.execute_store c5_store_entry c5_mem = none ∧
    c5_store_entry.mem_exception = Except.ok () := by decide

/-- C6: the claim states that after every branch retirement the
predictor entry for the branch pc has been updated by the four-case
rule.  Retiring an actually-taken branch at pc 64 over the predictor
state (predicted false, last actual taken) leaves the predictor
unchanged - ReorderBufferEntry::retire neither receives nor updates it
- so predict(64) still returns false, while the four-case table (which
BranchPredictor::update does implement) requires true. -/
theorem c6_retire_never_updates_predictor :
    (retire_step c6_branch_entry 0 c2_mem (RegisterFile.new 0 0) c6_bp
        noop_system_call).map (fun t => (t.2.2.1, t.2.2.2)) =
      some (c6_bp, true) ∧
    (c6_bp.predict 64).1 = false ∧
    c6_bp.update 64 1 = some { branch_map := [(64, (true, true))] } ∧
    (BranchPredictor.predict { branch_map := [(64, (true, true))] } 64).1 =
      true ∧
    four_case_table (false, true) true = (true, true) := by
  exact ⟨rfl, by decide, by decide, by decide, by decide⟩

/-- Supporting fact for the predictor: for every pc already present in
the table, BranchPredictor::update is exactly the four-case rule of the
spec. -/
theorem update_implements_four_case_table (bp : BranchPredictor) (pc : Nat)
    (prev : Bool × Bool) (taken : Bool)
    (h : mapGet bp.branch_map pc = some prev) :
    bp.update pc (if taken then 1 else 0) =
      some { branch_map := mapSet bp.branch_map pc (four_case_table prev taken) } := by
  unfold BranchPredictor.update four_case_table
  rw [h]
  obtain ⟨p1, p2⟩ := prev
  cases p2 <;> cases taken <;> rfl

/-- C8: the claim states brk(new) with new at or above the data end
extends the region preserving contents.  On data bytes 1..8 backing
addresses 0..8, brk(10) passes the delta 10-8+1 = 3 to Vec::resize -
whose argument is the new total length - so the data vector is
truncated to [1, 2, 3] while the address range grows to (0, 11):
address 3, readable before (value 4), is no longer backed.  Below the
current end the region is unchanged and the argument is returned. -/
theorem c8_brk_truncates_data :
    brk_syscall c8_mem 10 =
      ({ c8_mem with data := [1, 2, 3], v_address_range := (0, 11) }, 10) ∧
    ProcessMemory.read c8_mem 3 1 = some 4 ∧
    ProcessMemory.read (brk_syscall c8_mem 10).1 3 1 = none ∧
    brk_syscall c8_mem 4 = (c8_mem, 4) := by decide

/-- C9: the claim states the main loop terminates (exiting with code 0)
on the exit syscall for every combination of the flags.  The break test
of the loop body sits inside the if on print_steps, so with the flag
clear the loop never breaks, even though is_program_finished recognises
the retired exit ecall; with the flag set and the program finished the
loop does break. -/
theorem c9_loop_never_breaks_without_print_steps :
    (∀ is_finished, main_loop_break false is_finished = false) ∧
    main_loop_break true true = true ∧
    Old.is_program_finished c9_reg [c9_exit_entry] = true := by
  refine ⟨fun b => rfl, rfl, by decide⟩

/- The register-file invariant behind C7, one mutation at a time. -/
theorem write_gpr_zero (reg : RegisterFile) (i v : Nat)
    (h0 : reg.gpr 0 = { value := 0, is_writable := false }) :
    (reg.write_gpr i v).gpr 0 = { value := 0, is_writable := false } := by
  show (fun j => if j = i then (reg.gpr i).write v else reg.gpr j) 0 = _
  by_cases h : (0 : Nat) = i
  · subst h
    simp only [if_pos rfl, h0, Register.write]
    rfl
  · simp only [if_neg h, h0]

theorem set_reg_rob_index_zero (reg : RegisterFile) (r idx : Nat)
    (h1 : reg.related_rob 0 = none) :
    (reg.set_reg_rob_index r idx).related_rob 0 = none := by
  unfold RegisterFile.set_reg_rob_index
  split
  · exact h1
  · rename_i h
    show (if (0 : Nat) = r then some idx else reg.related_rob 0) = none
    rw [if_neg fun hc => h hc.symm]
    exact h1

theorem set_reg_rob_index_gpr (reg : RegisterFile) (r idx : Nat) :
    (reg.set_reg_rob_index r idx).gpr = reg.gpr := by
  unfold RegisterFile.set_reg_rob_index
  split <;> rfl

theorem clear_rename_gpr (reg : RegisterFile) (rd oi : Nat) :
    (reg.clear_rename rd oi).gpr = reg.gpr := by
  unfold RegisterFile.clear_rename
  split
  · split <;> rfl
  · rfl

theorem clear_rename_zero (reg : RegisterFile) (rd oi : Nat)
    (h1 : reg.related_rob 0 = none) :
    (reg.clear_rename rd oi).related_rob 0 = none := by
  unfold RegisterFile.clear_rename
  split
  · split
    · show (if (0 : Nat) = rd then none else reg.related_rob 0) = none
      split
      · rfl
      · exact h1
    · exact h1
  · exact h1

theorem regfile_x0_step (reg : RegisterFile)
    (h0 : reg.gpr 0 = { value := 0, is_writable := false })
    (h1 : reg.related_rob 0 = none) (op : RegOp) :
    (applyRegOp reg op).gpr 0 = { value := 0, is_writable := false } ∧
    (applyRegOp reg op).related_rob 0 = none := by
  cases op with
  | writeGpr i v => exact ⟨write_gpr_zero reg i v h0, h1⟩
  | writePc v => exact ⟨h0, h1⟩
  | setRobIdx r idx =>
    refine ⟨?_, set_reg_rob_index_zero reg r idx h1⟩
    show (reg.set_reg_rob_index r idx).gpr 0 = _
    rw [set_reg_rob_index_gpr]
    exact h0
  | clearRename rd old_index =>
    refine ⟨?_, clear_rename_zero reg rd old_index h1⟩
    show (reg.clear_rename rd old_index).gpr 0 = _
    rw [clear_rename_gpr]
    exact h0

theorem regfile_x0_inv (ops : List RegOp) (reg : RegisterFile)
    (h0 : reg.gpr 0 = { value := 0, is_writable := false })
    (h1 : reg.related_rob 0 = none) :
    (applyRegOps reg ops).gpr 0 = { value := 0, is_writable := false } ∧
    (applyRegOps reg ops).related_rob 0 = none := by
  induction ops generalizing reg with
  | nil => exact ⟨h0, h1⟩
  | cons op rest ih =>
    have step := regfile_x0_step reg h0 h1 op
    exact ih (applyRegOp reg op) step.1 step.2

/-- C7: starting from RegisterFile::new, after any sequence of the
register-file mutations the pipeline performs (gpr writes through
Register::write, pc writes, renames through set_reg_rob_index, and the
conditional rename clear at retire), gpr[0] is still the read-only zero
register, no rename is recorded for register 0, and reading the operand
for register 0 yields Value(0) against any ROB. -/
theorem c7_x0_always_zero (pc sp : Nat) (ops : List RegOp)
    (rob : ReorderBuffer) :
    (applyRegOps (RegisterFile.new pc sp) ops).gpr 0 =
      { value := 0, is_writable := false } ∧
    (applyRegOps (RegisterFile.new pc sp) ops).related_rob 0 = none ∧
    (applyRegOps (RegisterFile.new pc sp) ops).get_reg_value 0 rob =
      some (Operand.Value 0) := by
  have base0 : (RegisterFile.new pc sp).gpr 0 =
      { value := 0, is_writable := false } := rfl
  have base1 : (RegisterFile.new pc sp).related_rob 0 = none := rfl
  obtain ⟨h0, h1⟩ := regfile_x0_inv ops (RegisterFile.new pc sp) base0 base1
  refine ⟨h0, h1, ?_⟩
  unfold RegisterFile.get_reg_value
  rw [h1, h0]
  rfl

/- Lemmas about the association-list model of HashMap. -/

theorem mapGet_eq_none_of_not_mem {β : Type} {m : List (Nat × β)} {j : Nat}
    (h : j ∉ m.map Prod.fst) : mapGet m j = none := by
  induction m with
  | nil => rfl
  | cons p rest ih =>
    simp only [List.map_cons, List.mem_cons, not_or] at h
    unfold mapGet
    rw [if_neg fun hc => h.1 hc.symm]
    exact ih h.2

theorem mem_of_mapGet_some {β : Type} {m : List (Nat × β)} {j : Nat} {v : β}
    (h : mapGet m j = some v) : j ∈ m.map Prod.fst := by
  by_contra hc
  rw [mapGet_eq_none_of_not_mem hc] at h
  cases h

theorem mapGet_mapInsert {β : Type} (m : List (Nat × β)) (k : Nat) (v : β)
    (j : Nat) :
    mapGet (mapInsert m k v) j = if j = k then some v else mapGet m j := by
  induction m with
  | nil =>
    show (if k = j then some v else none) = if j = k then some v else none
    by_cases h : k = j
    · rw [if_pos h, if_pos h.symm]
    · rw [if_neg h, if_neg fun hc => h hc.symm]
  | cons p rest ih =>
    unfold mapInsert
    by_cases hp : p.1 = k
    · rw [if_pos hp]
      show (if k = j then some v else mapGet rest j) =
        if j = k then some v else mapGet (p :: rest) j
      by_cases hj : k = j
      · rw [if_pos hj, if_pos hj.symm]
      · rw [if_neg hj, if_neg fun hc => hj hc.symm]
        show mapGet rest j = mapGet (p :: rest) j
        unfold mapGet
        rw [if_neg (hp ▸ hj)]
        cases rest <;> rfl
    · rw [if_neg hp]
      show (if p.1 = j then some p.2 else mapGet (mapInsert rest k v) j) =
        if j = k then some v else mapGet (p :: rest) j
      by_cases hpj : p.1 = j
      · rw [if_pos hpj, if_neg fun hc => hp (hpj.trans hc)]
        show _ = mapGet (p :: rest) j
        unfold mapGet
        rw [if_pos hpj]
      · rw [if_neg hpj, ih]
        by_cases hj : j = k
        · rw [if_pos hj, if_pos hj]
        · rw [if_neg hj, if_neg hj]
          show mapGet rest j = mapGet (p :: rest) j
          unfold mapGet
          rw [if_neg hpj]
          cases rest <;> rfl

theorem mem_keys_mapInsert {β : Type} {m : List (Nat × β)} {k : Nat} {v : β}
    {j : Nat} (h : j ∈ (mapInsert m k v).map Prod.fst) :
    j = k ∨ j ∈ m.map Prod.fst := by
  induction m with
  | nil =>
    simp only [mapInsert, List.map_cons, List.map_nil,
      List.mem_singleton] at h
    exact Or.inl h
  | cons p rest ih =>
    unfold mapInsert at h
    by_cases hp : p.1 = k
    · rw [if_pos hp] at h
      simp only [List.map_cons, List.mem_cons] at h
      cases h with
      | inl h2 => exact Or.inl h2
      | inr h2 =>
        exact Or.inr (by simp only [List.map_cons, List.mem_cons]; exact Or.inr h2)
    · rw [if_neg hp] at h
      simp only [List.map_cons, List.mem_cons] at h
      cases h with
      | inl h2 =>
        exact Or.inr (by simp only [List.map_cons, List.mem_cons]; exact Or.inl h2)
      | inr h2 =>
        cases ih h2 with
        | inl h3 => exact Or.inl h3
        | inr h3 =>
          exact Or.inr
            (by simp only [List.map_cons, List.mem_cons]; exact Or.inr h3)

theorem nodup_keys_mapInsert {β : Type} {m : List (Nat × β)} (k : Nat) (v : β)
    (h : (m.map Prod.fst).Nodup) : ((mapInsert m k v).map Prod.fst).Nodup := by
  induction m with
  | nil => simp [mapInsert]
  | cons p rest ih =>
    simp only [List.map_cons, List.nodup_cons] at h
    unfold mapInsert
    by_cases hp : p.1 = k
    · rw [if_pos hp]
      simp only [List.map_cons, List.nodup_cons]
      exact ⟨hp ▸ h.1, h.2⟩
    · rw [if_neg hp]
      simp only [List.map_cons, List.nodup_cons]
      refine ⟨?_, ih h.2⟩
      intro hc
      cases mem_keys_mapInsert hc with
      | inl h2 => exact hp h2
      | inr h2 => exact h.1 h2

theorem mapRemove_fst {β : Type} (m : List (Nat × β)) (k : Nat) :
    (mapRemove m k).1 = mapGet m k := by
  induction m with
  | nil => rfl
  | cons p rest ih =>
    show (if p.1 = k then (some p.2, rest)
      else ((mapRemove rest k).1, p :: (mapRemove rest k).2)).1 =
        if p.1 = k then some p.2 else mapGet rest k
    by_cases hp : p.1 = k
    · rw [if_pos hp, if_pos hp]
    · rw [if_neg hp, if_neg hp]
      exact ih

theorem mem_keys_mapRemove {β : Type} {m : List (Nat × β)} {k j : Nat}
    (h : j ∈ (mapRemove m k).2.map Prod.fst) : j ∈ m.map Prod.fst := by
  induction m with
  | nil => simp [mapRemove] at h
  | cons p rest ih =>
    have hsplit : (mapRemove (p :: rest) k).2 =
        if p.1 = k then rest else p :: (mapRemove rest k).2 := by
      show (if p.1 = k then (some p.2, rest)
        else ((mapRemove rest k).1, p :: (mapRemove rest k).2)).2 = _
      by_cases hp : p.1 = k
      · rw [if_pos hp, if_pos hp]
      · rw [if_neg hp, if_neg hp]
    rw [hsplit] at h
    by_cases hp : p.1 = k
    · rw [if_pos hp] at h
      simp only [List.map_cons, List.mem_cons]
      exact Or.inr h
    · rw [if_neg hp] at h
      simp only [List.map_cons, List.mem_cons] at h ⊢
      cases h with
      | inl h2 => exact Or.inl h2
      | inr h2 => exact Or.inr (ih h2)

theorem nodup_keys_mapRemove {β : Type} {m : List (Nat × β)} (k : Nat)
    (h : (m.map Prod.fst).Nodup) :
    ((mapRemove m k).2.map Prod.fst).Nodup := by
  induction m with
  | nil => simp [mapRemove]
  | cons p rest ih =>
    simp only [List.map_cons, List.nodup_cons] at h
    have hsplit : (mapRemove (p :: rest) k).2 =
        if p.1 = k then rest else p :: (mapRemove rest k).2 := by
      show (if p.1 = k then (some p.2, rest)
        else ((mapRemove rest k).1, p :: (mapRemove rest k).2)).2 = _
      by_cases hp : p.1 = k
      · rw [if_pos hp, if_pos hp]
      · rw [if_neg hp, if_neg hp]
    rw [hsplit]
    by_cases hp : p.1 = k
    · rw [if_pos hp]; exact h.2
    · rw [if_neg hp]
      simp only [List.map_cons, List.nodup_cons]
      exact ⟨fun hc => h.1 (mem_keys_mapRemove hc), ih h.2⟩

theorem mapGet_mapRemove {β : Type} {m : List (Nat × β)} (k j : Nat)
    (h : (m.map Prod.fst).Nodup) :
    mapGet (mapRemove m k).2 j = if j = k then none else mapGet m j := by
  induction m with
  | nil =>
    show (none : Option β) = if j = k then none else none
    by_cases hj : j = k
    · rw [if_pos hj]
    · rw [if_neg hj]
  | cons p rest ih =>
    simp only [List.map_cons, List.nodup_cons] at h
    have hsplit : (mapRemove (p :: rest) k).2 =
        if p.1 = k then rest else p :: (mapRemove rest k).2 := by
      show (if p.1 = k then (some p.2, rest)
        else ((mapRemove rest k).1, p :: (mapRemove rest k).2)).2 = _
      by_cases hp : p.1 = k
      · rw [if_pos hp, if_pos hp]
      · rw [if_neg hp, if_neg hp]
    rw [hsplit]
    by_cases hp : p.1 = k
    · rw [if_pos hp]
      by_cases hj : j = k
      · rw [if_pos hj]
        exact mapGet_eq_none_of_not_mem (by rw [hj, ← hp]; exact h.1)
      · rw [if_neg hj]
        show mapGet rest j = mapGet (p :: rest) j
        unfold mapGet
        rw [if_neg fun hc : p.1 = j => hj (hc.symm.trans hp)]
        cases rest <;> rfl
    · rw [if_neg hp]
      show mapGet (p :: (mapRemove rest k).2) j = _
      unfold mapGet
      by_cases hpj : p.1 = j
      · rw [if_pos hpj, if_neg fun hc : j = k => hp (hpj.trans hc), if_pos hpj]
      · rw [if_neg hpj, ih h.2]
        by_cases hj : j = k
        · rw [if_pos hj, if_pos hj]
        · rw [if_neg hj, if_neg hj, if_neg hpj]

theorem keys_mapSet {β : Type} (m : List (Nat × β)) (k : Nat) (v : β) :
    (mapSet m k v).map Prod.fst = m.map Prod.fst := by
  induction m with
  | nil => rfl
  | cons p rest ih =>
    unfold mapSet
    by_cases hp : p.1 = k
    · rw [if_pos hp]
      simp only [List.map_cons]
      rw [hp]
    · rw [if_neg hp]
      simp only [List.map_cons]
      rw [ih]

theorem mapGet_mapSet {β : Type} (m : List (Nat × β)) (k : Nat) (v : β)
    (j : Nat) :
    mapGet (mapSet m k v) j =
      if j = k then (mapGet m k).map (fun _ => v) else mapGet m j := by
  induction m with
  | nil =>
    show (none : Option β) = if j = k then Option.map _ none else none
    by_cases hj : j = k
    · rw [if_pos hj]; rfl
    · rw [if_neg hj]
  | cons p rest ih =>
    unfold mapSet
    by_cases hp : p.1 = k
    · rw [if_pos hp]
      show (if k = j then some v else mapGet rest j) = _
      by_cases hj : j = k
      · rw [if_pos hj.symm, if_pos hj]
        show some v = ((if p.1 = k then some p.2 else mapGet rest k).map
          fun _ => v)
        rw [if_pos hp]
        rfl
      · rw [if_neg fun hc => hj hc.symm, if_neg hj]
        show mapGet rest j = mapGet (p :: rest) j
        unfold mapGet
        rw [if_neg fun hc : p.1 = j => hj (hc.symm.trans hp)]
        cases rest <;> rfl
    · rw [if_neg hp]
      show (if p.1 = j then some p.2 else mapGet (mapSet rest k v) j) = _
      by_cases hpj : p.1 = j
      · rw [if_pos hpj, if_neg fun hc : j = k => hp (hpj.trans hc)]
        show _ = mapGet (p :: rest) j
        unfold mapGet
        rw [if_pos hpj]
      · rw [if_neg hpj, ih]
        by_cases hj : j = k
        · rw [if_pos hj, if_pos hj]
          show ((mapGet rest k).map fun _ => v) =
            ((if p.1 = k then some p.2 else mapGet rest k).map fun _ => v)
          rw [if_neg hp]
        · rw [if_neg hj, if_neg hj]
          show mapGet rest j = mapGet (p :: rest) j
          unfold mapGet
          rw [if_neg hpj]
          cases rest <;> rfl

theorem mapSet_eq_of_none {β : Type} {m : List (Nat × β)} {k : Nat} (v : β)
    (h : mapGet m k = none) : mapSet m k v = m := by
  induction m with
  | nil => rfl
  | cons p rest ih =>
    unfold mapGet at h
    unfold mapSet
    by_cases hp : p.1 = k
    · rw [if_pos hp] at h; cases h
    · rw [if_neg hp] at h
      rw [if_neg hp, ih h]

/- Lemmas about Vec::swap_remove. -/

theorem swapRemove_eq {α : Type} {l : List α} {p : Nat} {x z : α}
    (hget : l.get? p = some x) (hlast : l.getLast? = some z) :
    swapRemove l p = some (x, (l.set p z).dropLast) := by
  unfold swapRemove
  rw [hget, hlast]

theorem swapRemove_get? {α : Type} {l : List α} {p : Nat} {z : α}
    (r : Nat) :
    ((l.set p z).dropLast).get? r =
      if r < l.length - 1 then (if p = r then some z else l.get? r)
      else none := by
  rw [List.dropLast_eq_take, List.length_set]
  by_cases hr : r < l.length - 1
  · rw [if_pos hr, List.get?_take hr, List.get?_set]
    by_cases hpr : p = r
    · rw [if_pos hpr, if_pos hpr]
      have hlt : r < l.length := by omega
      obtain ⟨y, hy⟩ : ∃ y, l.get? r = some y := by
        cases hg : l.get? r with
        | none => exact absurd (List.get?_eq_none.mp hg) (by omega)
        | some y => exact ⟨y, rfl⟩
      rw [hy]
      rfl
    · rw [if_neg hpr, if_neg hpr]
  · rw [if_neg hr]
    apply List.get?_eq_none.mpr
    rw [List.length_take, List.length_set]
    omega

theorem swapRemove_perm {α : Type} (l : List α) :
    ∀ (p : Nat) (x : α) (l2 : List α),
      swapRemove l p = some (x, l2) → l.Perm (x :: l2) := by
  induction l with
  | nil =>
    intro p x l2 h
    simp [swapRemove] at h
  | cons a as ih =>
    intro p x l2 h
    cases as with
    | nil =>
      cases p with
      | zero =>
        have hget : ([a] : List α).get? 0 = some a := rfl
        have hlast : ([a] : List α).getLast? = some a := rfl
        rw [swapRemove_eq hget hlast] at h
        simp only [Option.some.injEq, Prod.mk.injEq] at h
        obtain ⟨rfl, rfl⟩ := h
        exact List.Perm.refl _
      | succ q =>
        simp [swapRemove] at h
    | cons b bs =>
      have hne : (b :: bs : List α) ≠ [] := by simp
      have hz := List.getLast?_eq_getLast (b :: bs) hne
      cases p with
      | zero =>
        have hget : (a :: b :: bs).get? 0 = some a := rfl
        have hlast : (a :: b :: bs).getLast? = some ((b :: bs).getLast hne) := by
          rw [List.getLast?_cons_cons]; exact hz
        rw [swapRemove_eq hget hlast] at h
        simp only [Option.some.injEq, Prod.mk.injEq] at h
        obtain ⟨rfl, rfl⟩ := h
        have hset : (a :: b :: bs).set 0 ((b :: bs).getLast hne) =
            (b :: bs).getLast hne :: b :: bs := rfl
        rw [hset, List.dropLast_cons₂]
        have hperm : (b :: bs).Perm
            ((b :: bs).getLast hne :: (b :: bs).dropLast) := by
          conv_lhs => rw [← List.dropLast_append_getLast hne]
          exact List.perm_append_singleton _ _
        exact hperm.cons a
      | succ q =>
        cases hq : (b :: bs).get? q with
        | none =>
          have hnone : (a :: b :: bs).get? (q + 1) = none := hq
          unfold swapRemove at h
          rw [hnone] at h
          cases h
        | some y =>
          have hget : (a :: b :: bs).get? (q + 1) = some y := hq
          have hlast : (a :: b :: bs).getLast? =
              some ((b :: bs).getLast hne) := by
            rw [List.getLast?_cons_cons]; exact hz
          rw [swapRemove_eq hget hlast] at h
          simp only [Option.some.injEq, Prod.mk.injEq] at h
          obtain ⟨rfl, rfl⟩ := h
          have hsetne : (b :: bs).set q ((b :: bs).getLast hne) ≠ [] := by
            intro hcon
            have hlen := congrArg List.length hcon
            simp [List.length_set] at hlen
          have hset : (a :: b :: bs).set (q + 1) ((b :: bs).getLast hne) =
              a :: (b :: bs).set q ((b :: bs).getLast hne) := rfl
          rw [hset, List.dropLast_cons_of_ne_nil hsetne]
          have hsub : swapRemove (b :: bs) q =
              some (y, ((b :: bs).set q ((b :: bs).getLast hne)).dropLast) :=
            swapRemove_eq hq hz
          have hih := ih q y _ hsub
          exact (hih.cons a).trans
            (List.Perm.swap y a ((b :: bs).set q ((b :: bs).getLast hne)).dropLast)

/- The coupling holds at reset. -/

theorem coupled_empty : RobCoupled ReorderBuffer.empty RobModel.empty := by
  refine ⟨rfl, rfl, rfl, List.Perm.refl _, ?_, ?_, ?_, ?_, ?_, ?_, ?_, ?_⟩
  · intro p pr hp; cases hp
  · intro i _; rfl
  · exact List.nodup_nil
  · exact List.nodup_nil
  · intro i hi; cases hi
  · intro i hi; cases hi
  · intro i hi; cases hi
  · exact List.nodup_nil

/- The parts of the coupling preserved by ReorderBuffer::add that do not
   depend on where the fresh index came from. -/

theorem coupled_add_core (s : ReorderBuffer) (m : RobModel)
    (e : ReorderBufferEntry) (h : RobCoupled s m) (i0 : Nat)
    (hfresh : i0 ∉ m.queue.map Prod.fst) :
    s.index_queue ++ [i0] = (m.queue ++ [(i0, e)]).map Prod.fst ∧
    (s.buf ++ [(i0, e)]).Perm (m.queue ++ [(i0, e)]) ∧
    (∀ p pr, (s.buf ++ [(i0, e)]).get? p = some pr →
      mapGet (mapInsert s.index_map i0 s.buf.length) pr.1 = some p) ∧
    (∀ i, i ∉ (s.buf ++ [(i0, e)]).map Prod.fst →
      mapGet (mapInsert s.index_map i0 s.buf.length) i = none) ∧
    ((m.queue ++ [(i0, e)]).map Prod.fst).Nodup ∧
    ((mapInsert s.index_map i0 s.buf.length).map Prod.fst).Nodup := by
  refine ⟨?_, h.hperm.append_right _, ?_, ?_, ?_, nodup_keys_mapInsert _ _ h.hmnodup⟩
  · rw [h.hqueue, List.map_append]
    rfl
  · intro p pr hp
    by_cases hlt : p < s.buf.length
    · rw [List.get?_append hlt] at hp
      have hmem : pr ∈ s.buf := by
        obtain ⟨hb, hg⟩ := List.get?_eq_some.mp hp
        exact hg ▸ List.get_mem s.buf p hb
      have hkey : pr.1 ≠ i0 := by
        intro hc
        apply hfresh
        rw [← hc]
        exact List.mem_map_of_mem Prod.fst (h.hperm.mem_iff.mp hmem)
      rw [mapGet_mapInsert, if_neg hkey]
      exact h.hpos p pr hp
    · have hge : s.buf.length ≤ p := Nat.le_of_not_lt hlt
      rw [List.get?_append_right hge] at hp
      have hcase : p - s.buf.length = 0 ∧ pr = (i0, e) := by
        cases hd : p - s.buf.length with
        | zero =>
          rw [hd] at hp
          refine ⟨rfl, ?_⟩
          have := Option.some.injEq (α := Nat × ReorderBufferEntry) (i0, e) pr
          exact (Option.some.inj hp).symm
        | succ q =>
          rw [hd] at hp
          cases hp
      obtain ⟨hd, rfl⟩ := hcase
      have hp0 : p = s.buf.length := by omega
      rw [hp0, mapGet_mapInsert, if_pos rfl]
  · intro i hi
    rw [List.map_append] at hi
    simp only [List.mem_append, List.map_cons, List.map_nil,
      List.mem_singleton, not_or] at hi
    rw [mapGet_mapInsert, if_neg hi.2]
    exact h.hdead i hi.1
  · rw [List.map_append]
    rw [List.nodup_append]
    refine ⟨h.hqnodup, by simp, ?_⟩
    intro a ha hb
    simp only [List.map_cons, List.map_nil, List.mem_singleton] at hb
    exact hfresh (hb ▸ ha)

/- Evaluation of ReorderBuffer::pop_front on a state whose head index is
   alive: it removes the head entry by swap_remove, repoints the moved
   last pair's index, and recycles the head index. -/

theorem pop_front_cons (s : ReorderBuffer) (i : Nat) (q : List Nat)
    (hne : s.buf.isEmpty = false) (hiq : s.index_queue = i :: q)
    (p : Nat) (h1 : (mapRemove s.index_map i).1 = some p)
    (lp : Nat × ReorderBufferEntry) (h2 : s.buf.getLast? = some lp)
    (x : Nat × ReorderBufferEntry) (b2 : List (Nat × ReorderBufferEntry))
    (h3 : swapRemove s.buf p = some (x, b2)) :
    s.pop_front = some (some x.2,
      { s with index_queue := q
               index_map := mapSet (mapRemove s.index_map i).2 lp.1 p
               buf := b2
               unused_indies := s.unused_indies ++ [i] }) := by
  unfold ReorderBuffer.pop_front
  rw [if_neg (by rw [hne]; exact Bool.false_ne_true), hiq]
  show (((match (mapRemove s.index_map i).1 with
    | some raw_idx_to_remove =>
      match s.buf.getLast? with
      | none => none
      | some lastPair =>
        match swapRemove s.buf raw_idx_to_remove with
        | none => none
        | some (removedPair, newBuf) =>
          some
            (some removedPair.2,
              { highst_index := s.highst_index, unused_indies := s.unused_indies ++ [i], index_queue := q,
                index_map := mapSet (mapRemove s.index_map i).2 lastPair.1 raw_idx_to_remove, buf := newBuf })
    | none =>
      some
        (none,
          { highst_index := s.highst_index, unused_indies := s.unused_indies, index_queue := q,
            index_map := (mapRemove s.index_map i).2,
            buf := s.buf })) : Option (Option ReorderBufferEntry × ReorderBuffer))) = _
  rw [h1, h2]
  split
  · rename_i raw heq
    injection heq with hraw
    subst hraw
    split
    · rename_i heq2
      cases heq2
    · rename_i lastPair heq2
      injection heq2 with hlp
      subst hlp
      split
      · rename_i heq3
        rw [h3] at heq3
        cases heq3
      · rename_i removedPair newBuf heq3
        rw [h3] at heq3
        injection heq3 with h4
        injection h4 with h5 h6
        subst h5
        subst h6
        rfl
  · rename_i heq
    cases heq

/- ReorderBuffer::add preserves the coupling. -/

theorem coupled_add (s : ReorderBuffer) (m : RobModel)
    (e : ReorderBufferEntry) (h : RobCoupled s m) :
    RobCoupled (s.add e).2 (m.add e) := by
  cases hfc : m.free with
  | nil =>
    have hu : s.unused_indies = [] := by rw [h.hfree, hfc]
    have hadd : (s.add e).2 =
        { highst_index := s.highst_index + 1
          unused_indies := s.unused_indies
          index_queue := s.index_queue ++ [s.highst_index]
          index_map := mapInsert s.index_map s.highst_index s.buf.length
          buf := s.buf ++ [(s.highst_index, e)] } := by
      unfold ReorderBuffer.add ReorderBuffer.register_new_index
      rw [hu]
    have hmadd : m.add e =
        { queue := m.queue ++ [(s.highst_index, e)]
          free := []
          next := s.highst_index + 1 } := by
      unfold RobModel.add
      rw [hfc, ← h.hnext]
    have hfresh : s.highst_index ∉ m.queue.map Prod.fst := by
      intro hc
      have := h.hqbound _ hc
      rw [← h.hnext] at this
      omega
    obtain ⟨c1, c2, c3, c4, c5, c6⟩ := coupled_add_core s m e h s.highst_index hfresh
    rw [hadd, hmadd]
    refine ⟨c1, hu, rfl, c2, c3, c4, c5, List.nodup_nil, ?_, ?_, ?_, c6⟩
    · intro i hi; cases hi
    · intro i hi
      rw [List.map_append] at hi
      cases List.mem_append.mp hi with
      | inl h2 =>
        have := h.hqbound _ h2
        rw [← h.hnext] at this
        show i < s.highst_index + 1
        omega
      | inr h2 =>
        simp only [List.map_cons, List.map_nil, List.mem_singleton] at h2
        show i < s.highst_index + 1
        omega
    · intro i hi; cases hi
  | cons i0 rest =>
    have hu : s.unused_indies = i0 :: rest := by rw [h.hfree, hfc]
    have hadd : (s.add e).2 =
        { highst_index := s.highst_index
          unused_indies := rest
          index_queue := s.index_queue ++ [i0]
          index_map := mapInsert s.index_map i0 s.buf.length
          buf := s.buf ++ [(i0, e)] } := by
      unfold ReorderBuffer.add ReorderBuffer.register_new_index
      rw [hu]
    have hmadd : m.add e =
        { queue := m.queue ++ [(i0, e)], free := rest, next := m.next } := by
      unfold RobModel.add
      rw [hfc]
    have hi0free : i0 ∈ m.free := by rw [hfc]; exact List.mem_cons_self _ _
    have hfresh : i0 ∉ m.queue.map Prod.fst := h.hdisj i0 hi0free
    have hfnd : i0 ∉ rest ∧ rest.Nodup := by
      have := h.hfnodup
      rw [hfc] at this
      exact List.nodup_cons.mp this
    obtain ⟨c1, c2, c3, c4, c5, c6⟩ := coupled_add_core s m e h i0 hfresh
    rw [hadd, hmadd]
    refine ⟨c1, rfl, h.hnext, c2, c3, c4, c5, hfnd.2, ?_, ?_, ?_, c6⟩
    · intro i hi
      have hif : i ∈ m.free := by rw [hfc]; exact List.mem_cons_of_mem _ hi
      rw [List.map_append]
      intro hc
      cases List.mem_append.mp hc with
      | inl h2 => exact h.hdisj i hif h2
      | inr h2 =>
        simp only [List.map_cons, List.map_nil, List.mem_singleton] at h2
        exact hfnd.1 (h2 ▸ hi)
    · intro i hi
      rw [List.map_append] at hi
      cases List.mem_append.mp hi with
      | inl h2 => exact h.hqbound _ h2
      | inr h2 =>
        simp only [List.map_cons, List.map_nil, List.mem_singleton] at h2
        exact h2 ▸ h.hfbound i0 hi0free
    · intro i hi
      exact h.hfbound i (by rw [hfc]; exact List.mem_cons_of_mem _ hi)

/- ReorderBuffer::pop_front implements RobModel.pop and preserves the
   coupling. -/

theorem coupled_pop (s : ReorderBuffer) (m : RobModel) (h : RobCoupled s m) :
    ∃ s2, s.pop_front = some (m.pop.1, s2) ∧ RobCoupled s2 m.pop.2 := by
  cases hq : m.queue with
  | nil =>
    have hbuf : s.buf = [] := (hq ▸ h.hperm).eq_nil
    have hm : m.pop = (none, m) := by unfold RobModel.pop; rw [hq]
    have hpop : s.pop_front = some (none, s) := by
      unfold ReorderBuffer.pop_front
      rw [if_pos (by rw [hbuf]; rfl)]
    refine ⟨s, ?_, ?_⟩
    · rw [hpop, hm]
    · rw [hm]
      exact h
  | cons ie rest =>
    obtain ⟨i, e⟩ := ie
    have hmemq : (i, e) ∈ m.queue := by rw [hq]; exact List.mem_cons_self _ _
    have hmemb : (i, e) ∈ s.buf := h.hperm.mem_iff.mpr hmemq
    obtain ⟨p, hp⟩ := List.mem_iff_get?.mp hmemb
    have hmap : mapGet s.index_map i = some p := h.hpos p (i, e) hp
    have hbufne : s.buf ≠ [] := by
      intro hc
      rw [hc] at hp
      cases hp
    have hnemp : s.buf.isEmpty = false := by
      cases hb : s.buf with
      | nil => exact absurd hb hbufne
      | cons a as => rfl
    obtain ⟨z, hz⟩ : ∃ z, s.buf.getLast? = some z :=
      Option.isSome_iff_exists.mp (List.getLast?_isSome.mpr hbufne)
    have hlastpos : s.buf.get? (s.buf.length - 1) = some z := by
      rw [← List.getLast?_eq_get?]
      exact hz
    have hmaplast : mapGet s.index_map z.1 = some (s.buf.length - 1) :=
      h.hpos _ z hlastpos
    have hplen : p < s.buf.length := by
      obtain ⟨hb, _⟩ := List.get?_eq_some.mp hp
      exact hb
    have hiq : s.index_queue = i :: rest.map Prod.fst := by
      rw [h.hqueue, hq]
      rfl
    have hrem1 : (mapRemove s.index_map i).1 = some p := by
      rw [mapRemove_fst]
      exact hmap
    have hswap : swapRemove s.buf p = some ((i, e), (s.buf.set p z).dropLast) :=
      swapRemove_eq hp hz
    have hpop := pop_front_cons s i (rest.map Prod.fst) hnemp hiq p hrem1 z hz
      (i, e) ((s.buf.set p z).dropLast) hswap
    have hmpop : m.pop =
        (some e, { queue := rest, free := m.free ++ [i], next := m.next }) := by
      unfold RobModel.pop
      rw [hq]
    have hbufkeys : (s.buf.map Prod.fst).Nodup :=
      ((h.hperm.map Prod.fst).nodup_iff).mpr h.hqnodup
    have hqn : (List.map Prod.fst m.queue).Nodup := h.hqnodup
    rw [hq] at hqn
    have hino : i ∉ rest.map Prod.fst ∧ (rest.map Prod.fst).Nodup := by
      simp only [List.map_cons, List.nodup_cons] at hqn
      exact hqn
    have hiqmem : i ∈ m.queue.map Prod.fst :=
      List.mem_map_of_mem Prod.fst hmemq
    have hpermb : s.buf.Perm ((i, e) :: (s.buf.set p z).dropLast) :=
      swapRemove_perm s.buf p (i, e) _ hswap
    have hperm2 : ((s.buf.set p z).dropLast).Perm rest := by
      have hx : ((i, e) :: (s.buf.set p z).dropLast).Perm ((i, e) :: rest) :=
        hpermb.symm.trans (h.hperm.trans (by rw [hq]))
      exact hx.cons_inv
    refine ⟨_, by rw [hpop, hmpop], ?_⟩
    rw [hmpop]
    have hzmem : z ∈ s.buf := by
      obtain ⟨hb, hg⟩ := List.get?_eq_some.mp hlastpos
      exact hg ▸ List.get_mem s.buf _ hb
    refine ⟨?_, ?_, h.hnext, hperm2, ?_, ?_, hino.2, ?_, ?_, ?_, ?_, ?_⟩
    · rfl
    · show s.unused_indies ++ [i] = m.free ++ [i]
      rw [h.hfree]
    · -- hpos for the new state
      intro r pr hpr
      have hchar := swapRemove_get? (l := s.buf) (p := p) (z := z) r
      rw [hchar] at hpr
      by_cases hr : r < s.buf.length - 1
      · rw [if_pos hr] at hpr
        by_cases hpr2 : p = r
        · rw [if_pos hpr2] at hpr
          have hprz : z = pr := Option.some.inj hpr
          subst hprz
          have hzi : z.1 ≠ i := by
            intro hc
            rw [hc] at hmaplast
            have := hmap.symm.trans hmaplast
            have hpe := Option.some.inj this
            omega
          show mapGet (mapSet (mapRemove s.index_map i).2 z.1 p) z.1 = some r
          rw [mapGet_mapSet, if_pos rfl, mapGet_mapRemove _ _ h.hmnodup,
            if_neg hzi, hmaplast]
          rw [← hpr2]
          rfl
        · rw [if_neg hpr2] at hpr
          have holdpos := h.hpos r pr hpr
          have hpri : pr.1 ≠ i := by
            intro hc
            rw [hc] at holdpos
            have := hmap.symm.trans holdpos
            exact hpr2 (Option.some.inj this)
          have hprz : pr.1 ≠ z.1 := by
            intro hc
            rw [hc] at holdpos
            have := hmaplast.symm.trans holdpos
            have hre := Option.some.inj this
            omega
          show mapGet (mapSet (mapRemove s.index_map i).2 z.1 p) pr.1 = some r
          rw [mapGet_mapSet, if_neg hprz, mapGet_mapRemove _ _ h.hmnodup,
            if_neg hpri]
          exact holdpos
      · rw [if_neg hr] at hpr
        cases hpr
    · -- hdead for the new state
      intro j hj
      have hkeysperm : (s.buf.map Prod.fst).Perm
          (i :: ((s.buf.set p z).dropLast).map Prod.fst) := hpermb.map Prod.fst
      show mapGet (mapSet (mapRemove s.index_map i).2 z.1 p) j = none
      by_cases hji : j = i
      · subst hji
        by_cases hjz : j = z.1
        · rw [mapGet_mapSet, if_pos hjz, ← hjz,
            mapGet_mapRemove _ _ h.hmnodup, if_pos rfl]
          rfl
        · rw [mapGet_mapSet, if_neg hjz, mapGet_mapRemove _ _ h.hmnodup,
            if_pos rfl]
      · have hjbuf : j ∉ s.buf.map Prod.fst := by
          intro hc
          cases List.mem_cons.mp (hkeysperm.mem_iff.mp hc) with
          | inl h2 => exact hji h2
          | inr h2 => exact hj h2
        have hjz : j ≠ z.1 := by
          intro hc
          exact hjbuf (hc ▸ List.mem_map_of_mem Prod.fst hzmem)
        rw [mapGet_mapSet, if_neg hjz, mapGet_mapRemove _ _ h.hmnodup,
          if_neg hji]
        exact h.hdead j hjbuf
    · -- hfnodup
      rw [List.nodup_append]
      refine ⟨h.hfnodup, by simp, ?_⟩
      intro a ha hb
      simp only [List.mem_singleton] at hb
      exact h.hdisj a ha (hb ▸ hiqmem)
    · -- hdisj
      intro j hjf hc
      cases List.mem_append.mp hjf with
      | inl h2 =>
        exact h.hdisj j h2 (by rw [hq]; exact List.mem_cons_of_mem _ hc)
      | inr h2 =>
        simp only [List.mem_singleton] at h2
        exact hino.1 (h2 ▸ hc)
    · -- hqbound
      intro j hjq
      exact h.hqbound j (by rw [hq]; exact List.mem_cons_of_mem _ hjq)
    · -- hfbound
      intro j hjf
      cases List.mem_append.mp hjf with
      | inl h2 => exact h.hfbound j h2
      | inr h2 =>
        simp only [List.mem_singleton] at h2
        exact h2 ▸ h.hqbound i hiqmem
    · -- hmnodup
      show ((mapSet (mapRemove s.index_map i).2 z.1 p).map Prod.fst).Nodup
      rw [keys_mapSet]
      exact nodup_keys_mapRemove _ h.hmnodup

/- Running any interleaving of add and pop_front from coupled states
   produces identical pop traces too. -/

theorem coupled_runOps (ops : List RobOp) :
    ∀ (s : ReorderBuffer) (m : RobModel), RobCoupled s m →
      ∃ s2, runOps s ops = some (s2, (runModel m ops).2) ∧
        RobCoupled s2 (runModel m ops).1 := by
  induction ops with
  | nil =>
    intro s m h
    exact ⟨s, rfl, h⟩
  | cons op rest ih =>
    intro s m h
    cases op with
    | add e =>
      obtain ⟨s2, hrun, hc⟩ := ih (s.add e).2 (m.add e) (coupled_add s m e h)
      exact ⟨s2, hrun, hc⟩
    | pop =>
      obtain ⟨s1, hpop, hc1⟩ := coupled_pop s m h
      obtain ⟨s2, hrun, hc2⟩ := ih s1 m.pop.2 hc1
      refine ⟨s2, ?_, ?_⟩
      · show (match s.pop_front with
          | none => none
          | some (out, r2) =>
            match runOps r2 rest with
            | none => none
            | some (rEnd, outs) => some (rEnd, out :: outs)) =
            some (s2, (runModel m (RobOp.pop :: rest)).2)
        rw [hpop]
        show (match runOps s1 rest with
          | none => none
          | some (rEnd, outs) => some (rEnd, m.pop.1 :: outs)) =
            some (s2, (runModel m (RobOp.pop :: rest)).2)
        rw [hrun]
        show some (s2, m.pop.1 :: (runModel m.pop.2 rest).2) = _
        rfl
      · exact hc2

/-- C10: the reorder buffer's stable-handle behaviour refines a plain
FIFO of (index, entry) pairs: for every interleaving of
ReorderBuffer::add and ReorderBuffer::pop_front starting from the empty
buffer, no call panics, the values returned by pop_front are exactly
the FIFO's (entries leave in issue order), the issue queue lists the
live indices in issue order, the free list receives an index exactly
when its entry is popped (so an index is reused only after its entry
left), and despite the swap_remove compaction get(i) returns exactly
the entry issued under index i while it is live and none once it is
dead. -/
theorem c10_rob_refines_fifo (ops : List RobOp) :
    ∃ s, runOps ReorderBuffer.empty ops =
        some (s, (runModel RobModel.empty ops).2) ∧
      s.index_queue = (runModel RobModel.empty ops).1.queue.map Prod.fst ∧
      s.unused_indies = (runModel RobModel.empty ops).1.free ∧
      (∀ i e, (i, e) ∈ (runModel RobModel.empty ops).1.queue →
        s.get i = some e) ∧
      (∀ i, i ∉ (runModel RobModel.empty ops).1.queue.map Prod.fst →
        s.get i = none) := by
  obtain ⟨s, hrun, hc⟩ :=
    coupled_runOps ops ReorderBuffer.empty RobModel.empty coupled_empty
  refine ⟨s, hrun, hc.hqueue, hc.hfree, ?_, ?_⟩
  · intro i e hmem
    have hbuf : (i, e) ∈ s.buf := hc.hperm.mem_iff.mpr hmem
    obtain ⟨p, hp⟩ := List.mem_iff_get?.mp hbuf
    have hmap := hc.hpos p (i, e) hp
    unfold ReorderBuffer.get
    rw [hmap]
    show (s.buf.get? p).map (fun pr => pr.2) = some e
    rw [hp]
    rfl
  · intro i hni
    have hnb : i ∉ s.buf.map Prod.fst := by
      intro hcon
      exact hni ((hc.hperm.map Prod.fst).mem_iff.mp hcon)
    have hnone := hc.hdead i hnb
    unfold ReorderBuffer.get
    rw [hnone]
    rfl

end Sim
